import Mathlib

/-!
Verification of the purchase scheduler (engine + schedule coordinator).

A shallow embedding of the TypeScript sources `scheduler.ts`, `scheduleManager.ts`,
`utils.ts` and `types.ts`.

Conventions of the embedding:
* Calendar days are identified with their canonical day key (the `YYYY-MM-DD`
  string produced by `dateToDateString`); we model a day as a `Nat` (day index),
  so `dateToDateString` is the identity and `addDays` is addition.  All dates the
  code compares are compared through `dateToDateString`, so this is faithful at
  calendar-day granularity.
* JavaScript `Map`/object lookups become functions into `Option` or association
  lists; JavaScript `Set`s become duplicate-free lists preserving insertion order.
* The injected logger is modelled as a writer: engine warnings are returned as a
  list of structured `EngineWarning` values, and the coordinator's audit log is
  the list of audit action kinds in append order (entry details are not needed
  by any property proved here).
* `throw` is modelled with `Except`: each fallible coordinator operation returns
  the successor state together with `Except.ok ()` or `Except.error msg`; state
  mutations performed before a `throw` (the `*_FAIL` audit append) are kept in
  the returned state, exactly as in the source.
* The ambient wall-clock default for the `today` parameters is modelled by
  making `today` an explicit parameter everywhere.
-/

/-- Embedding of `addDays` from `utils.ts`: day arithmetic at calendar-day granularity. -/
def addDays (date : Nat) (days : Nat) : Nat := date + days

/-- Embedding of `PurchaseStatus` from `types.ts`. -/
inductive PurchaseStatus
  | pending
  | completed
  | missed
  | delayed
deriving Repr, DecidableEq

/-- Embedding of `TaskToSchedule` from `types.ts`. -/
structure TaskToSchedule where
  reviewId : String
  bookId : String
  orderId : String
  clientId : Option String
deriving Repr, DecidableEq

/-- Embedding of `ScheduledPurchase` from `types.ts`. -/
structure ScheduledPurchase where
  purchaseId : String
  reviewId : String
  orderId : String
  bookId : String
  accountId : String
  purchaseDate : Nat
  reviewDate : Nat
  status : PurchaseStatus
  client : Option String
  notes : Option String
deriving Repr, DecidableEq

/-- Embedding of `Account` from `types.ts`. -/
structure Account where
  id : String
  name : String
deriving Repr, DecidableEq

/-- Embedding of `OrderItem` from `types.ts`. -/
structure OrderItem where
  reviewId : String
  bookId : String
deriving Repr, DecidableEq

/-- Embedding of `Order` from `types.ts`. -/
structure Order where
  id : String
  clientId : String
  items : List OrderItem
  createdAt : Nat
deriving Repr, DecidableEq

/-- Embedding of `AccountDailyRunStatus` from `types.ts`: ephemeral per-(account, day) state of
one scheduling run.  `booksPurchasedToday` models the JavaScript `Set<string>`. -/
structure AccountDailyRunStatus where
  unavailable : Bool
  purchaseCount : Nat
  booksPurchasedToday : List String
deriving Repr, DecidableEq

/-- Embedding of `AccountAvailability` from `types.ts`: an object keyed by account id whose
values hold the list of unavailable days.  Modelled as an association list. -/
abbrev AccountAvailability := List (String × List Nat)

/-- Lookup of `accountAvailability[accountId]` (first binding wins, as for
JavaScript object keys, which are unique anyway). -/
def availLookup : AccountAvailability → String → Option (List Nat)
  | [], _ => none
  | e :: rest, a => if e.1 = a then some e.2 else availLookup rest a

/-- JavaScript `Set.add`: append if not already present (insertion order preserved). -/
def setAddStr (s : List String) (x : String) : List String :=
  if x ∈ s then s else s ++ [x]

/-- JavaScript `Set.add` for days. -/
def setAddDay (s : List Nat) (d : Nat) : List Nat :=
  if d ∈ s then s else s ++ [d]

/-- JavaScript `new Set(l)`: duplicate-free list keeping first occurrences in order. -/
def daySet (l : List Nat) : List Nat := l.foldl setAddDay []

/-- Constants from `scheduler.ts`. -/
def MAX_PURCHASES_PER_ACCOUNT_PER_DAY : Nat := 3

/-- Embedding of `MIN_REVIEW_DELAY_DAYS` from `scheduler.ts`. -/
def MIN_REVIEW_DELAY_DAYS : Nat := 4

/-- Embedding of `MAX_SCHEDULING_ATTEMPT_DAYS` from `scheduler.ts`. -/
def MAX_SCHEDULING_ATTEMPT_DAYS : Nat := 365

/-- The nested `Map<string, Map<string, AccountDailyRunStatus>>` of one run,
modelled as a finite map from the composite `(accountId, day)` key.  (The
presence of an *empty inner map* for an account is observationally irrelevant:
every read goes through a day key.) -/
def RunState := List ((String × Nat) × AccountDailyRunStatus)

/-- The initial empty run state. -/
def RunState.empty : RunState := []

/-- Lookup `runState.get(a)?.get(d)`: the day entry, if present. -/
def RunState.find : RunState → String → Nat → Option AccountDailyRunStatus
  | [], _, _ => none
  | e :: rest, a, d =>
    if e.1.1 = a ∧ e.1.2 = d then some e.2 else RunState.find rest a d

/-- Write `runState.get(a).set(d, st)` (ensuring the inner map exists): replace the
binding of the key if present, else append a new binding. -/
def RunState.set : RunState → String → Nat → AccountDailyRunStatus → RunState
  | [], a, d, st => [((a, d), st)]
  | e :: rest, a, d, st =>
    if e.1.1 = a ∧ e.1.2 = d then ((a, d), st) :: rest
    else e :: RunState.set rest a d st

/-- Reset `runState.set(a, new Map())`: drop all day entries of account `a`. -/
def RunState.clearAccount : RunState → String → RunState
  | [], _ => []
  | e :: rest, a =>
    if e.1.1 = a then RunState.clearAccount rest a
    else e :: RunState.clearAccount rest a

/-- Embedding of `isAccountUnavailableOnDate` from `scheduler.ts`. -/
def isAccountUnavailableOnDate (accountId : String) (date : Nat)
    (accountAvailability : AccountAvailability) : Bool :=
  match availLookup accountAvailability accountId with
  | some ds => decide (date ∈ ds)
  | none => false

/-- Structured content of the two `logger.logWarning` calls in `scheduler.ts`. -/
inductive EngineWarning
  | availabilityConflict (accountId : String) (dateStr : Nat)
  | unschedulableTask (reviewId : String) (bookId : String)
deriving Repr, DecidableEq

/-- First pass of `initializeRunState`: `runState.set(account.id, new Map())`,
then one `⟨unavailable := true, 0, ∅⟩` entry per unavailable day. -/
def initAvailability (accountAvailability : AccountAvailability)
    (allAccounts : List Account) (rs : RunState) : RunState :=
  allAccounts.foldl
    (fun rs account =>
      let rs := rs.clearAccount account.id
      match availLookup accountAvailability account.id with
      | some ds => ds.foldl (fun rs d => rs.set account.id d ⟨true, 0, []⟩) rs
      | none => rs)
    rs

/-- Second pass of `initializeRunState`: layer one committed purchase onto the
run state (skip `missed`; create the entry if absent; on an
unavailable-but-committed conflict emit a warning and unblock the entry;
then increment the count and record the book). -/
def layerCommitment (accountAvailability : AccountAvailability)
    (acc : RunState × List EngineWarning) (purchase : ScheduledPurchase) :
    RunState × List EngineWarning :=
  if purchase.status = PurchaseStatus.missed then acc
  else
    let rs := acc.1
    let st :=
      match rs.find purchase.accountId purchase.purchaseDate with
      | some st => st
      | none =>
        ⟨isAccountUnavailableOnDate purchase.accountId purchase.purchaseDate
            accountAvailability, 0, []⟩
    let warns :=
      if st.unavailable then
        acc.2 ++ [EngineWarning.availabilityConflict purchase.accountId
          purchase.purchaseDate]
      else acc.2
    (rs.set purchase.accountId purchase.purchaseDate
      ⟨false, st.purchaseCount + 1, setAddStr st.booksPurchasedToday purchase.bookId⟩,
     warns)

/-- Embedding of `initializeRunState` from `scheduler.ts`: availability pass, then the
committed-schedule pass. -/
def initializeRunState (existingCommittedSchedule : List ScheduledPurchase)
    (accountAvailability : AccountAvailability) (allAccounts : List Account) :
    RunState × List EngineWarning :=
  existingCommittedSchedule.foldl (layerCommitment accountAvailability)
    (initAvailability accountAvailability allAccounts RunState.empty, [])

/-- The lazy per-day initialization inside the task loop of `generateSchedule`:
create the `(account, day)` entry if absent, seeding `unavailable` from the
availability map. -/
def ensureDayEntry (accountAvailability : AccountAvailability) (accountId : String)
    (date : Nat) (rs : RunState) : RunState :=
  match rs.find accountId date with
  | some _ => rs
  | none =>
    rs.set accountId date
      ⟨isAccountUnavailableOnDate accountId date accountAvailability, 0, []⟩

/-- Body of the `for (const account of allAccounts)` loop of one day of the
per-task search in `generateSchedule`: lazily initialize the day entry, apply
the three constraint checks, and collect `(accountId, currentLoad)` if the
account passes them all. -/
def scanStep (accountAvailability : AccountAvailability) (bookId : String)
    (date : Nat) (acc : RunState × List (String × Nat)) (account : Account) :
    RunState × List (String × Nat) :=
  let rs := ensureDayEntry accountAvailability account.id date acc.1
  match rs.find account.id date with
  | none => (rs, acc.2)
  | some st =>
    if st.unavailable then (rs, acc.2)
    else if MAX_PURCHASES_PER_ACCOUNT_PER_DAY ≤ st.purchaseCount then (rs, acc.2)
    else if bookId ∈ st.booksPurchasedToday then (rs, acc.2)
    else (rs, acc.2 ++ [(account.id, st.purchaseCount)])

/-- One day of the per-task search in `generateSchedule`: walk `allAccounts` in
order accumulating the potential slots of the day. -/
def scanAccountsForDay (accountAvailability : AccountAvailability)
    (allAccounts : List Account) (bookId : String) (date : Nat) (rs : RunState) :
    RunState × List (String × Nat) :=
  allAccounts.foldl (scanStep accountAvailability bookId date) (rs, [])

/-- Selection `potentialSlotsThisDay.sort((a, b) => a.currentLoad - b.currentLoad)` followed
by taking element `0`.  JavaScript `Array.sort` is stable, so the result is the
first slot (in account-list order) holding the minimum load; the fold below
computes exactly that element. -/
def chooseMinLoad : List (String × Nat) → Option (String × Nat)
  | [] => none
  | x :: xs => some (xs.foldl (fun best y => if y.2 < best.2 then y else best) x)

/-- The day-by-day search loop of `generateSchedule` for one task: starting at
`date`, scan up to `fuel` days (the source bounds the `while` loop by
`MAX_SCHEDULING_ATTEMPT_DAYS` attempted days) and return the evolved run state
together with the chosen `(accountId, purchaseDate)` if any. -/
def findSlotFrom (accountAvailability : AccountAvailability)
    (allAccounts : List Account) (bookId : String) :
    Nat → Nat → RunState → RunState × Option (String × Nat)
  | 0, _, rs => (rs, none)
  | fuel + 1, date, rs =>
    let scanned := scanAccountsForDay accountAvailability allAccounts bookId date rs
    match chooseMinLoad scanned.2 with
    | some slot => (scanned.1, some (slot.1, date))
    | none => findSlotFrom accountAvailability allAccounts bookId fuel (addDays date 1) scanned.1

/-- The `ScheduledPurchase` record literal built in `generateSchedule` on success. -/
def mkScheduledItem (task : TaskToSchedule) (accountId : String) (purchaseDate : Nat) :
    ScheduledPurchase :=
  { purchaseId := task.reviewId
    reviewId := task.reviewId
    orderId := task.orderId
    bookId := task.bookId
    accountId := accountId
    purchaseDate := purchaseDate
    reviewDate := addDays purchaseDate MIN_REVIEW_DELAY_DAYS
    status := PurchaseStatus.pending
    client := task.clientId
    notes := none }

/-- Accumulator of the per-task loop of `generateSchedule`. -/
structure EngineAcc where
  rs : RunState
  scheduledItems : List ScheduledPurchase
  unschedulableTasks : List TaskToSchedule
  warnings : List EngineWarning

/-- The body of `generateSchedule`'s `for (const task of tasksToProcess)` loop:
search for the earliest slot; on success create the commitment and update the
chosen entry, otherwise log a warning and append the task to `unschedulable`. -/
def processOneTask (accountAvailability : AccountAvailability)
    (allAccounts : List Account) (today : Nat) (acc : EngineAcc)
    (task : TaskToSchedule) : EngineAcc :=
  let found := findSlotFrom accountAvailability allAccounts task.bookId
    MAX_SCHEDULING_ATTEMPT_DAYS today acc.rs
  match found.2 with
  | some slot =>
    let item := mkScheduledItem task slot.1 slot.2
    let rs :=
      match (found.1).find slot.1 slot.2 with
      | some st =>
        found.1.set slot.1 slot.2
          ⟨st.unavailable, st.purchaseCount + 1,
            setAddStr st.booksPurchasedToday task.bookId⟩
      | none => found.1
    { acc with rs := rs, scheduledItems := acc.scheduledItems ++ [item] }
  | none =>
    { acc with
        rs := found.1
        warnings := acc.warnings ++
          [EngineWarning.unschedulableTask task.reviewId task.bookId]
        unschedulableTasks := acc.unschedulableTasks ++ [task] }

/-- Return value of `generateSchedule`. -/
structure ScheduleResult where
  scheduledItems : List ScheduledPurchase
  unschedulableTasks : List TaskToSchedule
deriving Repr, DecidableEq

/-- Embedding of `PurchaseScheduler.generateSchedule` from `scheduler.ts`, with the injected
logger's warnings returned as a list. -/
def generateSchedule (tasksToProcess : List TaskToSchedule)
    (existingCommittedSchedule : List ScheduledPurchase)
    (allAccounts : List Account) (accountAvailability : AccountAvailability)
    (today : Nat) : ScheduleResult × List EngineWarning :=
  let init := initializeRunState existingCommittedSchedule accountAvailability allAccounts
  let acc := tasksToProcess.foldl
    (processOneTask accountAvailability allAccounts today)
    ⟨init.1, [], [], init.2⟩
  (⟨acc.scheduledItems, acc.unschedulableTasks⟩, acc.warnings)

/-- Embedding of `PurchaseScheduler.ordersToTasks` from `scheduler.ts`. -/
def ordersToTasks (orders : List Order) : List TaskToSchedule :=
  orders.foldl
    (fun tasks order =>
      tasks ++ order.items.map (fun item =>
        { reviewId := item.reviewId
          bookId := item.bookId
          orderId := order.id
          clientId := some order.clientId }))
    []

/-- Embedding of `PurchaseScheduler.scheduledItemsToTasks` from `scheduler.ts`. -/
def scheduledItemsToTasks (items : List ScheduledPurchase) : List TaskToSchedule :=
  items.map (fun item =>
    { reviewId := item.reviewId
      bookId := item.bookId
      orderId := item.orderId
      clientId := item.client })

/-- The closed set of audit `action` kinds written by `scheduleManager.ts`. -/
inductive AuditAction
  | INIT
  | ACCOUNT_ADDED
  | ACCOUNT_AVAILABILITY_UPDATED
  | SET_AVAILABILITY_FAIL
  | NEW_ORDERS_RECEIVED
  | PURCHASE_STATUS_UPDATED
  | MARK_STATUS_FAIL
  | TASK_FLAGGED_FOR_RESCHEDULE
  | PROCESSING_TASKS_START
  | PROCESSING_TASKS_END
  | TASKS_SCHEDULED
  | UNSCHEDULABLE_TASKS_ENCOUNTERED
  | SCHEDULER_INFO
  | SCHEDULER_WARNING
  | SCHEDULER_ERROR
deriving Repr, DecidableEq

/-- The mutable fields of a `ScheduleManager` instance.  The audit log records
the `action` kinds in append order. -/
structure ManagerState where
  masterSchedule : List ScheduledPurchase
  allAccounts : List Account
  accountAvailability : AccountAvailability
  auditLog : List AuditAction
deriving Repr, DecidableEq

/-- Embedding of `logAudit` from `scheduleManager.ts` (append-only). -/
def logAudit (st : ManagerState) (action : AuditAction) : ManagerState :=
  { st with auditLog := st.auditLog ++ [action] }

/-- Stable insertion of one purchase into a list sorted by `purchaseDate`. -/
def insertByDate (p : ScheduledPurchase) : List ScheduledPurchase → List ScheduledPurchase
  | [] => [p]
  | q :: qs => if p.purchaseDate < q.purchaseDate then p :: q :: qs else q :: insertByDate p qs

/-- Embedding of `.sort((a, b) => a.purchaseDate.getTime() - b.purchaseDate.getTime())`:
a stable sort by purchase date (JavaScript `Array.sort` is stable). -/
def sortByPurchaseDate (l : List ScheduledPurchase) : List ScheduledPurchase :=
  l.foldr insertByDate []

/-- The `(p) => p.status === "pending" || p.status === "completed"` filter of
`processTasks`. -/
def statusIsCommitted (p : ScheduledPurchase) : Bool :=
  decide (p.status = PurchaseStatus.pending ∨ p.status = PurchaseStatus.completed)

/-- Embedding of `ScheduleManager.processTasks`: the single merge routine through which every
canonical mutation funnels.  Engine warnings surface as `SCHEDULER_WARNING`
audit entries through the injected logger. -/
def processTasks (st : ManagerState) (tasksToProcess : List TaskToSchedule)
    (today : Nat) : ManagerState :=
  if tasksToProcess.isEmpty then st
  else
    let st := logAudit st AuditAction.PROCESSING_TASKS_START
    let committedSchedule := st.masterSchedule.filter statusIsCommitted
    let run := generateSchedule tasksToProcess committedSchedule st.allAccounts
      st.accountAvailability today
    let st := run.2.foldl (fun s _ => logAudit s AuditAction.SCHEDULER_WARNING) st
    let st := { st with
      masterSchedule := sortByPurchaseDate (committedSchedule ++ run.1.scheduledItems) }
    let st :=
      if run.1.scheduledItems.isEmpty then st
      else logAudit st AuditAction.TASKS_SCHEDULED
    let st :=
      if run.1.unschedulableTasks.isEmpty then st
      else logAudit st AuditAction.UNSCHEDULABLE_TASKS_ENCOUNTERED
    logAudit st AuditAction.PROCESSING_TASKS_END

/-- Embedding of `ScheduleManager.addNewOrders`. -/
def addNewOrders (st : ManagerState) (orders : List Order) (today : Nat) : ManagerState :=
  let newTasks := ordersToTasks orders
  if newTasks.isEmpty then st
  else processTasks (logAudit st AuditAction.NEW_ORDERS_RECEIVED) newTasks today

/-- Embedding of `masterSchedule.findIndex((p) => p.purchaseId === purchaseId)`, made
structural: split the list at the first purchase carrying the id, returning the
prefix before it, the purchase, and the suffix after it. -/
def splitAtPurchaseId (purchaseId : String) : List ScheduledPurchase →
    Option (List ScheduledPurchase × ScheduledPurchase × List ScheduledPurchase)
  | [] => none
  | p :: rest =>
    if p.purchaseId = purchaseId then some ([], p, rest)
    else (splitAtPurchaseId purchaseId rest).map (fun s => (p :: s.1, s.2.1, s.2.2))

/-- Embedding of `ScheduleManager.markPurchaseStatus`.  The in-place `purchase.status = status`
on the array element at the found index is `A ++ updated :: B`, and the
subsequent `splice(index, 1)` is `A ++ B`, where `A` holds no purchase with the
given id.  Failure (`throw`) is the `Except.error` component; the `*_FAIL` audit
entry written before the throw is kept in the returned state. -/
def markPurchaseStatus (st : ManagerState) (purchaseId : String)
    (status : PurchaseStatus) (today : Nat) : ManagerState × Except String Unit :=
  match splitAtPurchaseId purchaseId st.masterSchedule with
  | none =>
    (logAudit st AuditAction.MARK_STATUS_FAIL,
     Except.error ("Purchase with ID " ++ purchaseId ++ " not found in schedule."))
  | some s =>
    let A := s.1
    let purchase := s.2.1
    let B := s.2.2
    if purchase.status = status then (st, Except.ok ())
    else
      let updated := { purchase with status := status }
      let st := { st with masterSchedule := A ++ updated :: B }
      let st := logAudit st AuditAction.PURCHASE_STATUS_UPDATED
      if status = PurchaseStatus.missed ∨ status = PurchaseStatus.delayed then
        let st := { st with masterSchedule := A ++ B }
        let tasksToReschedule := scheduledItemsToTasks [updated]
        let st := logAudit st AuditAction.TASK_FLAGGED_FOR_RESCHEDULE
        (processTasks st tasksToReschedule today, Except.ok ())
      else (st, Except.ok ())

/-- Write `accountAvailability[accountId] = { unavailableDates }` (replace the
binding in place, or append a new one, as for JavaScript object keys). -/
def availUpdate : AccountAvailability → String → List Nat → AccountAvailability
  | [], a, ds => [(a, ds)]
  | e :: rest, a, ds => if e.1 = a then (a, ds) :: rest else e :: availUpdate rest a ds

/-- The reschedule filter of `setAccountAvailability`: a purchase of this account
that is still `pending` and whose day is in the (new) unavailable set. -/
def flaggedForReschedule (accountAvailability : AccountAvailability)
    (accountId : String) (p : ScheduledPurchase) : Bool :=
  decide (p.accountId = accountId) &&
  decide (p.status = PurchaseStatus.pending) &&
  decide (p.purchaseDate ∈ (availLookup accountAvailability accountId).getD [])

/-- Embedding of `ScheduleManager.setAccountAvailability`.  The two passes over the date sets
(union of newly unavailable days, then removal of newly available days) carry
the `changed` flag; the merged set is stored unconditionally, and on change the
pending purchases now sitting on unavailable days are withdrawn and resubmitted
through `processTasks`.  (The source leaves `today` to the wall-clock default of
`processTasks`; it is explicit here, see module docstring.) -/
def setAccountAvailability (st : ManagerState) (accountId : String)
    (unavailableDates : List Nat) (availableDates : Option (List Nat))
    (today : Nat) : ManagerState × Except String Unit :=
  if st.allAccounts.all (fun a => decide (a.id ≠ accountId)) then
    (logAudit st AuditAction.SET_AVAILABILITY_FAIL,
     Except.error ("Account " ++ accountId ++ " not found."))
  else
    let current := (availLookup st.accountAvailability accountId).getD []
    let existing0 := daySet current
    let added := (daySet unavailableDates).foldl
      (fun (acc : List Nat × Bool) d =>
        if d ∈ acc.1 then acc else (acc.1 ++ [d], true))
      (existing0, false)
    let merged :=
      match availableDates with
      | some ds =>
        (daySet ds).foldl
          (fun (acc : List Nat × Bool) d =>
            if d ∈ acc.1 then (acc.1.filter (fun x => decide (x ≠ d)), true) else acc)
          added
      | none => added
    let st := { st with
      accountAvailability := availUpdate st.accountAvailability accountId merged.1 }
    if merged.2 = false then (st, Except.ok ())
    else
      let st := logAudit st AuditAction.ACCOUNT_AVAILABILITY_UPDATED
      let flagged := st.masterSchedule.filter
        (flaggedForReschedule st.accountAvailability accountId)
      let remaining := st.masterSchedule.filter
        (fun p => !flaggedForReschedule st.accountAvailability accountId p)
      let tasksToReschedule := scheduledItemsToTasks flagged
      let st := flagged.foldl
        (fun s _ => logAudit s AuditAction.TASK_FLAGGED_FOR_RESCHEDULE) st
      if tasksToReschedule.isEmpty then (st, Except.ok ())
      else
        let st := { st with masterSchedule := remaining }
        (processTasks st tasksToReschedule today, Except.ok ())

/-- Embedding of `ScheduleManager.addAccount`. -/
def addAccount (st : ManagerState) (account : Account) : ManagerState :=
  if st.allAccounts.all (fun a => decide (a.id ≠ account.id)) then
    logAudit { st with allAccounts := st.allAccounts ++ [account] }
      AuditAction.ACCOUNT_ADDED
  else st

/-- The `ScheduleManager` constructor: empty schedule, the supplied accounts and
availability, and the `INIT` audit entry. -/
def initManager (initialAccounts : List Account)
    (initialAvailability : AccountAvailability) : ManagerState :=
  { masterSchedule := []
    allAccounts := initialAccounts
    accountAvailability := initialAvailability
    auditLog := [AuditAction.INIT] }

/-- Coordinator states reachable from a freshly constructed manager by any
sequence of `addNewOrders`, `markPurchaseStatus` and `setAccountAvailability`
calls. -/
inductive Reachable : ManagerState → Prop
  | init (initialAccounts : List Account) (initialAvailability : AccountAvailability) :
      Reachable (initManager initialAccounts initialAvailability)
  | addOrders {st : ManagerState} (orders : List Order) (today : Nat) :
      Reachable st → Reachable (addNewOrders st orders today)
  | markStatus {st : ManagerState} (purchaseId : String) (status : PurchaseStatus)
      (today : Nat) :
      Reachable st → Reachable (markPurchaseStatus st purchaseId status today).1
  | setAvail {st : ManagerState} (accountId : String) (unavailableDates : List Nat)
      (availableDates : Option (List Nat)) (today : Nat) :
      Reachable st → Reachable (setAccountAvailability st accountId unavailableDates
        availableDates today).1

/-! ## Proof support: run-state lookups and the default-extension order -/

/-- Basic lookup-after-write lemma: reading the key just written. -/
theorem RunState.find_set_self (rs : RunState) (a : String) (d : Nat)
    (st : AccountDailyRunStatus) : (rs.set a d st).find a d = some st := by
  induction rs with
  | nil => simp [RunState.set, RunState.find]
  | cons e rest ih =>
    by_cases h : e.1.1 = a ∧ e.1.2 = d
    · simp [RunState.set, RunState.find, h]
    · simp only [RunState.set, RunState.find, if_neg h]
      exact ih

/-- Basic lookup-after-write lemma: reading another key. -/
theorem RunState.find_set_ne (rs : RunState) (a : String) (d : Nat)
    (st : AccountDailyRunStatus) (a' : String) (d' : Nat)
    (h : ¬(a' = a ∧ d' = d)) : (rs.set a d st).find a' d' = rs.find a' d' := by
  induction rs with
  | nil =>
    have h2 : ¬(a = a' ∧ d = d') := fun hc => h ⟨hc.1.symm, hc.2.symm⟩
    simp [RunState.set, RunState.find, h2]
  | cons e rest ih =>
    by_cases he : e.1.1 = a ∧ e.1.2 = d
    · have h2 : ¬(a = a' ∧ d = d') := fun hc => h ⟨hc.1.symm, hc.2.symm⟩
      have h3 : ¬(e.1.1 = a' ∧ e.1.2 = d') := by
        rintro ⟨ha, hd⟩
        exact h ⟨by rw [← ha, he.1], by rw [← hd, he.2]⟩
      simp [RunState.set, RunState.find, he, h2, h3]
    · simp only [RunState.set, if_neg he]
      by_cases hk : e.1.1 = a' ∧ e.1.2 = d'
      · simp [RunState.find, hk]
      · simp only [RunState.find, if_neg hk]
        exact ih

/-- Lookup in a cleared account. -/
theorem RunState.find_clearAccount (rs : RunState) (a a' : String) (d' : Nat) :
    (rs.clearAccount a).find a' d' = if a' = a then none else rs.find a' d' := by
  induction rs with
  | nil => simp [RunState.clearAccount, RunState.find]
  | cons e rest ih =>
    by_cases he : e.1.1 = a
    · rw [RunState.clearAccount, if_pos he, ih]
      by_cases hk : a' = a
      · simp [hk]
      · have h4 : ¬(e.1.1 = a' ∧ e.1.2 = d') := fun hc => hk (hc.1.symm.trans he)
        simp [RunState.find, h4, hk]
    · rw [RunState.clearAccount, if_neg he]
      by_cases hk : e.1.1 = a' ∧ e.1.2 = d'
      · have hne : ¬a' = a := fun hc => he (hk.1.trans hc)
        simp [RunState.find, hk, hne]
      · simp only [RunState.find, if_neg hk]
        exact ih

/-- The entry an account sees for a day it has not touched yet: either the stored
entry, or a fresh one seeded from the availability blocklist.  This is exactly
the record the lazy initialization inside the task loop would create. -/
def effStatus (accountAvailability : AccountAvailability) (rs : RunState)
    (a : String) (d : Nat) : AccountDailyRunStatus :=
  match rs.find a d with
  | some st => st
  | none => ⟨isAccountUnavailableOnDate a d accountAvailability, 0, []⟩

/-- Relation between run states: the second only adds freshly seeded default
entries for keys the first had no entry for.  Every scan step of the engine
stays in this relation, so the effective status of any key is invariant. -/
def ExtendsDefault (accountAvailability : AccountAvailability) (rs rs' : RunState) : Prop :=
  ∀ a d, rs'.find a d = rs.find a d ∨
    (rs.find a d = none ∧
      rs'.find a d = some ⟨isAccountUnavailableOnDate a d accountAvailability, 0, []⟩)

theorem ExtendsDefault.refl (accountAvailability : AccountAvailability) (rs : RunState) :
    ExtendsDefault accountAvailability rs rs :=
  fun _ _ => Or.inl rfl

theorem ExtendsDefault.trans {accountAvailability : AccountAvailability}
    {rs₁ rs₂ rs₃ : RunState} (h₁ : ExtendsDefault accountAvailability rs₁ rs₂)
    (h₂ : ExtendsDefault accountAvailability rs₂ rs₃) :
    ExtendsDefault accountAvailability rs₁ rs₃ := by
  intro a d
  rcases h₂ a d with h23 | ⟨hn2, hs3⟩
  · rcases h₁ a d with h12 | ⟨hn1, hs2⟩
    · exact Or.inl (h23.trans h12)
    · exact Or.inr ⟨hn1, h23.trans hs2⟩
  · rcases h₁ a d with h12 | ⟨hn1, hs2⟩
    · exact Or.inr ⟨h12.symm.trans hn2, hs3⟩
    · rw [hn2] at hs2
      cases hs2

theorem ExtendsDefault.effStatus_eq {accountAvailability : AccountAvailability}
    {rs rs' : RunState} (h : ExtendsDefault accountAvailability rs rs')
    (a : String) (d : Nat) :
    effStatus accountAvailability rs' a d = effStatus accountAvailability rs a d := by
  rcases h a d with heq | ⟨hn, hs⟩
  · simp [effStatus, heq]
  · simp [effStatus, hn, hs]

/-- Entries present in the smaller state are unchanged in the larger one. -/
theorem ExtendsDefault.find_eq_of_isSome {accountAvailability : AccountAvailability}
    {rs rs' : RunState} (h : ExtendsDefault accountAvailability rs rs')
    {a : String} {d : Nat} {st : AccountDailyRunStatus}
    (hfind : rs.find a d = some st) : rs'.find a d = some st := by
  rcases h a d with heq | ⟨hn, _⟩
  · rw [heq, hfind]
  · rw [hfind] at hn
    cases hn

/-! ## Proof support: counting commitments per (account, day) -/

/-- Whether a purchase occupies a slot of `(a, d)` for counting purposes during a
run: exactly the purchases of that key whose status the engine counts against
limits (`status !== "missed"`, see `initializeRunState`). -/
def occupiesSlot (a : String) (d : Nat) (p : ScheduledPurchase) : Bool :=
  decide (p.status ≠ PurchaseStatus.missed ∧ p.accountId = a ∧ p.purchaseDate = d)

/-- The non-`missed` purchases of a list assigned to account `a` on day `d`. -/
def activeOn (l : List ScheduledPurchase) (a : String) (d : Nat) :
    List ScheduledPurchase :=
  l.filter (occupiesSlot a d)

/-- The `pending`/`completed` purchases of a list assigned to account `a` on day
`d` — the population the data-model invariants quantify over. -/
def committedOn (l : List ScheduledPurchase) (a : String) (d : Nat) :
    List ScheduledPurchase :=
  l.filter (fun p => statusIsCommitted p &&
    decide (p.accountId = a ∧ p.purchaseDate = d))

theorem activeOn_nil (a : String) (d : Nat) : activeOn [] a d = [] := rfl

theorem activeOn_append (l₁ l₂ : List ScheduledPurchase) (a : String) (d : Nat) :
    activeOn (l₁ ++ l₂) a d = activeOn l₁ a d ++ activeOn l₂ a d := by
  simp [activeOn, List.filter_append]

theorem activeOn_cons_of_pos {p : ScheduledPurchase} {a : String} {d : Nat}
    (h : occupiesSlot a d p = true) (l : List ScheduledPurchase) :
    activeOn (p :: l) a d = p :: activeOn l a d := by
  simp [activeOn, List.filter_cons, h]

theorem activeOn_cons_of_neg {p : ScheduledPurchase} {a : String} {d : Nat}
    (h : occupiesSlot a d p = false) (l : List ScheduledPurchase) :
    activeOn (p :: l) a d = activeOn l a d := by
  simp [activeOn, List.filter_cons, h]

theorem mem_of_mem_activeOn {l : List ScheduledPurchase} {a : String} {d : Nat}
    {p : ScheduledPurchase} (h : p ∈ activeOn l a d) :
    p ∈ l ∧ p.status ≠ PurchaseStatus.missed ∧ p.accountId = a ∧ p.purchaseDate = d := by
  have := List.mem_filter.mp h
  refine ⟨this.1, ?_⟩
  have h2 := this.2
  simpa [occupiesSlot] using h2

theorem mem_activeOn_of_facts {l : List ScheduledPurchase} {a : String} {d : Nat}
    {p : ScheduledPurchase} (hmem : p ∈ l) (hst : p.status ≠ PurchaseStatus.missed)
    (ha : p.accountId = a) (hd : p.purchaseDate = d) : p ∈ activeOn l a d := by
  refine List.mem_filter.mpr ⟨hmem, ?_⟩
  simp [occupiesSlot, hst, ha, hd]

/-- The three viability constraints of `generateSchedule` for one account on one
day, evaluated against the status the account would see for that day (the stored
entry, or the lazily seeded default): not unavailable, below the daily cap, and
the task's book not yet bought by that account that day. -/
def passesConstraints (accountAvailability : AccountAvailability) (rs : RunState)
    (bookId : String) (date : Nat) (account : Account) : Bool :=
  let st := effStatus accountAvailability rs account.id date
  !st.unavailable &&
    decide (st.purchaseCount < MAX_PURCHASES_PER_ACCOUNT_PER_DAY) &&
    !(decide (bookId ∈ st.booksPurchasedToday))

/-- The `potentialSlotsThisDay` list a day's scan produces, expressed against a
fixed run state: the viable accounts in list order, each with its current load. -/
def viableSlots (accountAvailability : AccountAvailability) (rs : RunState)
    (bookId : String) (date : Nat) (accounts : List Account) :
    List (String × Nat) :=
  (accounts.filter (passesConstraints accountAvailability rs bookId date)).map
    (fun account =>
      (account.id, (effStatus accountAvailability rs account.id date).purchaseCount))

/-- Modelled from the spec: among the viable slots of a day, choose the one with
the minimum current count, ties broken by first occurrence in the supplied
resource list — that is, the first slot whose load is less than or equal to
every other slot's load. -/
def specChooseMin (slots : List (String × Nat)) : Option (String × Nat) :=
  slots.find? (fun s => slots.all (fun s2 => decide (s.2 ≤ s2.2)))

theorem viableSlots_congr {accountAvailability : AccountAvailability}
    {rs rs' : RunState}
    (h : ∀ a d, effStatus accountAvailability rs' a d = effStatus accountAvailability rs a d)
    (bookId : String) (date : Nat) (accounts : List Account) :
    viableSlots accountAvailability rs' bookId date accounts =
      viableSlots accountAvailability rs bookId date accounts := by
  unfold viableSlots
  have hpc : ∀ account : Account,
      passesConstraints accountAvailability rs' bookId date account =
        passesConstraints accountAvailability rs bookId date account := by
    intro account
    unfold passesConstraints
    rw [h]
  rw [List.filter_congr (fun account _ => hpc account)]
  exact List.map_congr_left (fun account _ => by rw [h])

/-! ## Proof support: the day scan -/

theorem ensureDayEntry_extends (accountAvailability : AccountAvailability)
    (a0 : String) (d0 : Nat) (rs : RunState) :
    ExtendsDefault accountAvailability rs (ensureDayEntry accountAvailability a0 d0 rs) := by
  intro a d
  unfold ensureDayEntry
  cases hfind : rs.find a0 d0 with
  | some st => exact Or.inl rfl
  | none =>
    by_cases hk : a = a0 ∧ d = d0
    · rcases hk with ⟨rfl, rfl⟩
      rw [RunState.find_set_self, hfind]
      exact Or.inr ⟨rfl, rfl⟩
    · rw [RunState.find_set_ne _ _ _ _ _ _ hk]
      exact Or.inl rfl

theorem ensureDayEntry_find_self (accountAvailability : AccountAvailability)
    (a0 : String) (d0 : Nat) (rs : RunState) :
    (ensureDayEntry accountAvailability a0 d0 rs).find a0 d0 =
      some (effStatus accountAvailability rs a0 d0) := by
  unfold ensureDayEntry effStatus
  cases hfind : rs.find a0 d0 with
  | some st => exact hfind
  | none => exact RunState.find_set_self rs a0 d0 _

/-- Full characterization of the scan fold: the run state only gains default
entries, the produced slot list is the viable accounts with their loads
(relative to the starting run state), and every scanned account afterwards has
its day entry materialized with its effective status. -/
theorem scan_fold_spec (accountAvailability : AccountAvailability) (bookId : String)
    (date : Nat) :
    ∀ (accounts : List Account) (rs : RunState) (slots : List (String × Nat)),
      ExtendsDefault accountAvailability rs
        (accounts.foldl (scanStep accountAvailability bookId date) (rs, slots)).1 ∧
      (accounts.foldl (scanStep accountAvailability bookId date) (rs, slots)).2 =
        slots ++ viableSlots accountAvailability rs bookId date accounts ∧
      ∀ account ∈ accounts,
        ((accounts.foldl (scanStep accountAvailability bookId date) (rs, slots)).1).find
            account.id date =
          some (effStatus accountAvailability rs account.id date) := by
  intro accounts
  induction accounts with
  | nil =>
    intro rs slots
    refine ⟨ExtendsDefault.refl _ _, by simp [viableSlots], by simp⟩
  | cons account rest ih =>
    intro rs slots
    have hstep : scanStep accountAvailability bookId date (rs, slots) account =
        (ensureDayEntry accountAvailability account.id date rs,
          slots ++ (if passesConstraints accountAvailability rs bookId date account
            then [(account.id,
              (effStatus accountAvailability rs account.id date).purchaseCount)]
            else [])) := by
      unfold scanStep
      dsimp only
      rw [ensureDayEntry_find_self]
      unfold passesConstraints
      set st := effStatus accountAvailability rs account.id date with hst
      by_cases h1 : st.unavailable
      · simp [h1]
      · by_cases h2 : MAX_PURCHASES_PER_ACCOUNT_PER_DAY ≤ st.purchaseCount
        · simp [h1, h2, Nat.not_lt.mpr h2]
        · by_cases h3 : bookId ∈ st.booksPurchasedToday
          · simp [h1, h2, h3]
          · simp [h1, h2, h3, Nat.lt_of_not_le h2]
    have hext1 : ExtendsDefault accountAvailability rs
        (ensureDayEntry accountAvailability account.id date rs) :=
      ensureDayEntry_extends accountAvailability account.id date rs
    have heff1 : ∀ a d,
        effStatus accountAvailability (ensureDayEntry accountAvailability account.id date rs) a d =
          effStatus accountAvailability rs a d :=
      fun a d => hext1.effStatus_eq a d
    rw [List.foldl_cons, hstep]
    obtain ⟨ihext, ihslots, ihfind⟩ := ih (ensureDayEntry accountAvailability account.id date rs)
      (slots ++ (if passesConstraints accountAvailability rs bookId date account
        then [(account.id,
          (effStatus accountAvailability rs account.id date).purchaseCount)]
        else []))
    refine ⟨hext1.trans ihext, ?_, ?_⟩
    · rw [ihslots, viableSlots_congr heff1, List.append_assoc]
      congr 1
      unfold viableSlots
      rw [List.filter_cons]
      by_cases hp : passesConstraints accountAvailability rs bookId date account
      · simp [hp]
      · simp [hp]
    · intro acct hacct
      rcases List.mem_cons.mp hacct with rfl | hmem
      · have hself := ensureDayEntry_find_self accountAvailability acct.id date rs
        exact ihext.find_eq_of_isSome hself
      · rw [ihfind acct hmem, heff1]

/-! ## Proof support: the stable min-load selection -/

theorem chooseFold_mem :
    ∀ (xs : List (String × Nat)) (x : String × Nat),
      xs.foldl (fun best y => if y.2 < best.2 then y else best) x ∈ x :: xs := by
  intro xs
  induction xs with
  | nil => intro x; simp
  | cons y ys ih =>
    intro x
    rw [List.foldl_cons]
    by_cases hxy : y.2 < x.2
    · rw [if_pos hxy]
      exact List.mem_cons.mpr (Or.inr (ih y))
    · rw [if_neg hxy]
      rcases List.mem_cons.mp (ih x) with h1 | h1
      · exact List.mem_cons.mpr (Or.inl h1)
      · exact List.mem_cons.mpr (Or.inr (List.mem_cons.mpr (Or.inr h1)))

theorem chooseFold_min :
    ∀ (xs : List (String × Nat)) (x : String × Nat) (z : String × Nat),
      z ∈ x :: xs →
      (xs.foldl (fun best y => if y.2 < best.2 then y else best) x).2 ≤ z.2 := by
  intro xs
  induction xs with
  | nil =>
    intro x z hz
    rcases List.mem_cons.mp hz with rfl | h
    · exact Nat.le_refl _
    · cases h
  | cons y ys ih =>
    intro x z hz
    rw [List.foldl_cons]
    have hbx : (if y.2 < x.2 then y else x).2 ≤ x.2 := by
      by_cases hxy : y.2 < x.2
      · rw [if_pos hxy]; exact Nat.le_of_lt hxy
      · rw [if_neg hxy]
    have hby : (if y.2 < x.2 then y else x).2 ≤ y.2 := by
      by_cases hxy : y.2 < x.2
      · rw [if_pos hxy]
      · rw [if_neg hxy]; exact Nat.le_of_not_lt hxy
    have hself : (ys.foldl (fun best y => if y.2 < best.2 then y else best)
        (if y.2 < x.2 then y else x)).2 ≤ (if y.2 < x.2 then y else x).2 :=
      ih (if y.2 < x.2 then y else x) (if y.2 < x.2 then y else x)
        (List.mem_cons_self _ _)
    rcases List.mem_cons.mp hz with rfl | h
    · exact Nat.le_trans hself hbx
    · rcases List.mem_cons.mp h with rfl | h2
      · exact Nat.le_trans hself hby
      · exact ih (if y.2 < x.2 then y else x) z (List.mem_cons.mpr (Or.inr h2))

theorem chooseFold_first :
    ∀ (xs : List (String × Nat)) (x : String × Nat),
      ∃ l₁ l₂, x :: xs =
          l₁ ++ (xs.foldl (fun best y => if y.2 < best.2 then y else best) x) :: l₂ ∧
        ∀ z ∈ l₁,
          (xs.foldl (fun best y => if y.2 < best.2 then y else best) x).2 < z.2 := by
  intro xs
  induction xs with
  | nil =>
    intro x
    exact ⟨[], [], rfl, by simp⟩
  | cons y ys ih =>
    intro x
    rw [List.foldl_cons]
    by_cases hxy : y.2 < x.2
    · rw [if_pos hxy]
      obtain ⟨m₁, m₂, hsplit, hgt⟩ := ih y
      refine ⟨x :: m₁, m₂, ?_, ?_⟩
      · rw [List.cons_append, ← hsplit]
      · intro z hz
        rcases List.mem_cons.mp hz with rfl | h
        · exact Nat.lt_of_le_of_lt (chooseFold_min ys y y (List.mem_cons_self _ _)) hxy
        · exact hgt z h
    · rw [if_neg hxy]
      set r := ys.foldl (fun best y => if y.2 < best.2 then y else best) x with hrdef
      obtain ⟨m₁, m₂, hsplit, hgt⟩ := ih x
      rw [← hrdef] at hsplit hgt
      cases m₁ with
      | nil =>
        rw [List.nil_append] at hsplit
        injection hsplit with hx hys
        refine ⟨[], y :: m₂, ?_, by simp⟩
        rw [List.nil_append, ← hx, hys]
      | cons m m₁ =>
        rw [List.cons_append] at hsplit
        injection hsplit with hm hys
        have hrx : r.2 < x.2 := by
          have h0 := hgt m (List.mem_cons_self _ _)
          rw [← hm] at h0
          exact h0
        refine ⟨x :: y :: m₁, m₂, ?_, ?_⟩
        · rw [hys, List.cons_append, List.cons_append]
        · intro z hz
          rcases List.mem_cons.mp hz with rfl | h
          · exact hrx
          · rcases List.mem_cons.mp h with rfl | h2
            · exact Nat.lt_of_lt_of_le hrx (Nat.le_of_not_lt hxy)
            · exact hgt z (List.mem_cons.mpr (Or.inr h2))

theorem find?_of_split {α : Type} (p : α → Bool) :
    ∀ (l₁ : List α) (x : α) (l₂ : List α), p x = true → (∀ z ∈ l₁, p z = false) →
      (l₁ ++ x :: l₂).find? p = some x := by
  intro l₁
  induction l₁ with
  | nil =>
    intro x l₂ hx _
    simp [List.find?, hx]
  | cons z l₁ ih =>
    intro x l₂ hx hall
    rw [List.cons_append, List.find?]
    rw [hall z (List.mem_cons_self _ _)]
    exact ih x l₂ hx (fun w hw => hall w (List.mem_cons.mpr (Or.inr hw)))

/-- The engine's stable-sort-then-head selection coincides with the
specification's rule: minimum load, ties broken by first occurrence. -/
theorem chooseMinLoad_eq_specChooseMin (l : List (String × Nat)) :
    chooseMinLoad l = specChooseMin l := by
  cases l with
  | nil => rfl
  | cons x xs =>
    set r := xs.foldl (fun best y => if y.2 < best.2 then y else best) x with hrdef
    have hcm : chooseMinLoad (x :: xs) = some r := by rw [hrdef]; rfl
    obtain ⟨l₁, l₂, hsplit, hgt⟩ := chooseFold_first xs x
    rw [← hrdef] at hsplit hgt
    have hrmem : r ∈ x :: xs := by
      have := chooseFold_mem xs x
      rw [← hrdef] at this
      exact this
    have hp : (x :: xs).all (fun s2 => decide (r.2 ≤ s2.2)) = true := by
      rw [List.all_eq_true]
      intro z hz
      have := chooseFold_min xs x z hz
      rw [← hrdef] at this
      exact decide_eq_true this
    have hfail : ∀ z ∈ l₁, (x :: xs).all (fun s2 => decide (z.2 ≤ s2.2)) = false := by
      intro z hz
      rw [← Bool.not_eq_true, List.all_eq_true]
      intro hcontra
      exact Nat.not_le.mpr (hgt z hz) (of_decide_eq_true (hcontra r hrmem))
    rw [hcm]
    unfold specChooseMin
    rw [hsplit] at hp hfail ⊢
    exact (find?_of_split _ l₁ r l₂ hp hfail).symm

theorem chooseMinLoad_none_iff (l : List (String × Nat)) :
    chooseMinLoad l = none ↔ l = [] := by
  cases l with
  | nil => simp [chooseMinLoad]
  | cons x xs => simp [chooseMinLoad]

theorem chooseMinLoad_mem {l : List (String × Nat)} {x : String × Nat}
    (h : chooseMinLoad l = some x) : x ∈ l := by
  cases l with
  | nil => cases h
  | cons y ys =>
    unfold chooseMinLoad at h
    rw [Option.some.injEq] at h
    have := chooseFold_mem ys y
    rw [h] at this
    exact this

/-! ## Proof support: the day-by-day slot search -/

theorem scanAccountsForDay_spec (accountAvailability : AccountAvailability)
    (bookId : String) (date : Nat) (accounts : List Account) (rs : RunState) :
    ExtendsDefault accountAvailability rs
      (scanAccountsForDay accountAvailability accounts bookId date rs).1 ∧
    (scanAccountsForDay accountAvailability accounts bookId date rs).2 =
      viableSlots accountAvailability rs bookId date accounts ∧
    ∀ account ∈ accounts,
      ((scanAccountsForDay accountAvailability accounts bookId date rs).1).find
          account.id date =
        some (effStatus accountAvailability rs account.id date) := by
  obtain ⟨h1, h2, h3⟩ := scan_fold_spec accountAvailability bookId date accounts rs []
  refine ⟨h1, ?_, h3⟩
  rw [show (scanAccountsForDay accountAvailability accounts bookId date rs).2 =
    (accounts.foldl (scanStep accountAvailability bookId date) (rs, [])).2 from rfl, h2]
  simp

theorem findSlot_extends (accountAvailability : AccountAvailability)
    (accounts : List Account) (bookId : String) :
    ∀ (fuel : Nat) (start : Nat) (rs : RunState),
      ExtendsDefault accountAvailability rs
        (findSlotFrom accountAvailability accounts bookId fuel start rs).1 := by
  intro fuel
  induction fuel with
  | zero => intro start rs; exact ExtendsDefault.refl _ _
  | succ n ih =>
    intro start rs
    obtain ⟨hext, _, _⟩ := scanAccountsForDay_spec accountAvailability bookId start accounts rs
    cases hc : chooseMinLoad (scanAccountsForDay accountAvailability accounts bookId start rs).2 with
    | some slot =>
      simp only [findSlotFrom, hc]
      exact hext
    | none =>
      simp only [findSlotFrom, hc]
      exact hext.trans (ih (addDays start 1) _)

theorem findSlot_none (accountAvailability : AccountAvailability)
    (accounts : List Account) (bookId : String) :
    ∀ (fuel : Nat) (start : Nat) (rs : RunState),
      (findSlotFrom accountAvailability accounts bookId fuel start rs).2 = none →
      ∀ e, start ≤ e → e < start + fuel →
        viableSlots accountAvailability rs bookId e accounts = [] := by
  intro fuel
  induction fuel with
  | zero =>
    intro start rs _ e h1 h2
    omega
  | succ n ih =>
    intro start rs hres e h1 h2
    obtain ⟨hext, hslots, _⟩ :=
      scanAccountsForDay_spec accountAvailability bookId start accounts rs
    cases hc : chooseMinLoad (scanAccountsForDay accountAvailability accounts bookId start rs).2 with
    | some slot =>
      simp only [findSlotFrom, hc] at hres
      cases hres
    | none =>
      have hstart : viableSlots accountAvailability rs bookId start accounts = [] := by
        have hnil := (chooseMinLoad_none_iff _).mp hc
        rw [hslots] at hnil
        exact hnil
      rcases Nat.eq_or_lt_of_le h1 with rfl | hlt
      · exact hstart
      · simp only [findSlotFrom, hc] at hres
        have heff : ∀ a d,
            effStatus accountAvailability
                ((scanAccountsForDay accountAvailability accounts bookId start rs).1) a d =
              effStatus accountAvailability rs a d :=
          fun a d => hext.effStatus_eq a d
        have hrec := ih (addDays start 1) _ hres e
          (by simpa [addDays] using hlt) (by simp only [addDays]; omega)
        rw [viableSlots_congr heff] at hrec
        exact hrec

theorem findSlot_some (accountAvailability : AccountAvailability)
    (accounts : List Account) (bookId : String) :
    ∀ (fuel : Nat) (start : Nat) (rs : RunState) (aid : String) (date : Nat),
      (findSlotFrom accountAvailability accounts bookId fuel start rs).2 =
          some (aid, date) →
      start ≤ date ∧ date < start + fuel ∧
      (∀ e, start ≤ e → e < date →
        viableSlots accountAvailability rs bookId e accounts = []) ∧
      (∃ load, chooseMinLoad (viableSlots accountAvailability rs bookId date accounts) =
        some (aid, load)) ∧
      ∀ account ∈ accounts,
        ((findSlotFrom accountAvailability accounts bookId fuel start rs).1).find
            account.id date =
          some (effStatus accountAvailability rs account.id date) := by
  intro fuel
  induction fuel with
  | zero =>
    intro start rs aid date hres
    simp only [findSlotFrom] at hres
    cases hres
  | succ n ih =>
    intro start rs aid date hres
    obtain ⟨hext, hslots, hentries⟩ :=
      scanAccountsForDay_spec accountAvailability bookId start accounts rs
    have heff : ∀ a d,
        effStatus accountAvailability
            ((scanAccountsForDay accountAvailability accounts bookId start rs).1) a d =
          effStatus accountAvailability rs a d :=
      fun a d => hext.effStatus_eq a d
    cases hc : chooseMinLoad (scanAccountsForDay accountAvailability accounts bookId start rs).2 with
    | some slot =>
      simp only [findSlotFrom, hc] at hres ⊢
      injection hres with h12
      injection h12 with h1 h2
      refine ⟨by omega, by omega, ?_, ?_, ?_⟩
      · intro e he1 he2
        rw [← h2] at he2
        exact absurd he2 (Nat.not_lt.mpr he1)
      · refine ⟨slot.2, ?_⟩
        rw [hslots] at hc
        rw [← h2, ← h1]
        exact hc
      · intro account hacct
        rw [← h2]
        exact hentries account hacct
    | none =>
      simp only [findSlotFrom, hc] at hres ⊢
      obtain ⟨ih1, ih2, ih3, ih4, ih5⟩ := ih (addDays start 1) _ aid date hres
      have hstart : viableSlots accountAvailability rs bookId start accounts = [] := by
        have hnil := (chooseMinLoad_none_iff _).mp hc
        rw [hslots] at hnil
        exact hnil
      refine ⟨?_, ?_, ?_, ?_, ?_⟩
      · simp only [addDays] at ih1
        omega
      · simp only [addDays] at ih2
        omega
      · intro e he1 he2
        rcases Nat.eq_or_lt_of_le he1 with rfl | hlt
        · exact hstart
        · have := ih3 e (by simpa [addDays] using hlt) he2
          rw [viableSlots_congr heff] at this
          exact this
      · obtain ⟨load, hload⟩ := ih4
        rw [viableSlots_congr heff] at hload
        exact ⟨load, hload⟩
      · intro account hacct
        rw [ih5 account hacct, heff]

/-! ## Proof support: the run-state invariant -/

theorem setAddStr_mem_self (s : List String) (x : String) : x ∈ setAddStr s x := by
  unfold setAddStr
  by_cases h : x ∈ s
  · rw [if_pos h]; exact h
  · rw [if_neg h]; exact List.mem_append.mpr (Or.inr (List.mem_singleton.mpr rfl))

theorem setAddStr_subset {s : List String} {y : String} (x : String) (h : y ∈ s) :
    y ∈ setAddStr s x := by
  unfold setAddStr
  by_cases hx : x ∈ s
  · rw [if_pos hx]; exact h
  · rw [if_neg hx]; exact List.mem_append.mpr (Or.inl h)

theorem activeOn_append_ne_nil {l : List ScheduledPurchase} {a : String} {d : Nat}
    (h : activeOn l a d ≠ []) (l2 : List ScheduledPurchase) :
    activeOn (l ++ l2) a d ≠ [] := by
  rw [activeOn_append]
  intro hc
  exact h (List.append_eq_nil.mp hc).1

/-- The run-state invariant carried through initialization and the task loop:
the counts and recorded books of every `(account, day)` status agree with the
purchases of `base`, and every entry whose `unavailable` flag is `false` on a
day the availability map blocks is explained by a purchase of `blockedBase`. -/
structure RsInv (accountAvailability : AccountAvailability)
    (base blockedBase : List ScheduledPurchase) (rs : RunState) : Prop where
  counts : ∀ a d, (effStatus accountAvailability rs a d).purchaseCount =
    (activeOn base a d).length
  books : ∀ p ∈ base, p.status ≠ PurchaseStatus.missed →
    p.bookId ∈ (effStatus accountAvailability rs p.accountId
      p.purchaseDate).booksPurchasedToday
  blocked : ∀ a d st, rs.find a d = some st → st.unavailable = false →
    isAccountUnavailableOnDate a d accountAvailability = true →
    activeOn blockedBase a d ≠ []

theorem RsInv.extendsDefault {accountAvailability : AccountAvailability}
    {base blockedBase : List ScheduledPurchase} {rs rs' : RunState}
    (h : RsInv accountAvailability base blockedBase rs)
    (hext : ExtendsDefault accountAvailability rs rs') :
    RsInv accountAvailability base blockedBase rs' := by
  refine ⟨?_, ?_, ?_⟩
  · intro a d
    rw [hext.effStatus_eq]
    exact h.counts a d
  · intro p hp hst
    rw [hext.effStatus_eq]
    exact h.books p hp hst
  · intro a d st hfind hunav hblk
    rcases hext a d with heq | ⟨_, hdef⟩
    · rw [heq] at hfind
      exact h.blocked a d st hfind hunav hblk
    · rw [hdef] at hfind
      injection hfind with hst
      rw [← hst] at hunav
      rw [hblk] at hunav
      cases hunav

theorem RsInv.blocked_witness {accountAvailability : AccountAvailability}
    {base blockedBase : List ScheduledPurchase} {rs : RunState}
    (h : RsInv accountAvailability base blockedBase rs) {a : String} {d : Nat}
    (hunav : (effStatus accountAvailability rs a d).unavailable = false)
    (hblk : isAccountUnavailableOnDate a d accountAvailability = true) :
    activeOn blockedBase a d ≠ [] := by
  unfold effStatus at hunav
  cases hfind : rs.find a d with
  | some st =>
    rw [hfind] at hunav
    exact h.blocked a d st hfind hunav hblk
  | none =>
    rw [hfind] at hunav
    simp only at hunav
    rw [hblk] at hunav
    cases hunav

/-! ## Proof support: run-state initialization -/

theorem find_set_cases (rs : RunState) (a0 : String) (d0 : Nat)
    (st0 : AccountDailyRunStatus) (a : String) (d : Nat) (st : AccountDailyRunStatus)
    (h : (rs.set a0 d0 st0).find a d = some st) :
    st = st0 ∨ rs.find a d = some st := by
  by_cases hk : a = a0 ∧ d = d0
  · rcases hk with ⟨rfl, rfl⟩
    rw [RunState.find_set_self] at h
    injection h with h
    exact Or.inl h.symm
  · rw [RunState.find_set_ne _ _ _ _ _ _ hk] at h
    exact Or.inr h

/-- Every entry the availability pass produces carries the blocked marker
`⟨true, 0, ∅⟩`. -/
theorem initAvailability_entries (accountAvailability : AccountAvailability) :
    ∀ (accounts : List Account) (rs : RunState),
      (∀ a d st, rs.find a d = some st → st = ⟨true, 0, []⟩) →
      ∀ a d st, (initAvailability accountAvailability accounts rs).find a d = some st →
        st = ⟨true, 0, []⟩ := by
  have hdays : ∀ (a0 : String) (ds : List Nat) (rs : RunState),
      (∀ a d st, rs.find a d = some st → st = ⟨true, 0, []⟩) →
      ∀ a d st,
        (ds.foldl (fun rs d => RunState.set rs a0 d ⟨true, 0, []⟩) rs).find a d = some st →
        st = ⟨true, 0, []⟩ := by
    intro a0 ds
    induction ds with
    | nil => intro rs hrs; exact hrs
    | cons d0 rest ih =>
      intro rs hrs
      rw [List.foldl_cons]
      refine ih _ ?_
      intro a d st h
      rcases find_set_cases rs a0 d0 _ a d st h with h1 | h1
      · exact h1
      · exact hrs a d st h1
  intro accounts
  induction accounts with
  | nil => intro rs hrs; exact hrs
  | cons account rest ih =>
    intro rs hrs
    unfold initAvailability
    rw [List.foldl_cons]
    have hclear : ∀ a d st, (rs.clearAccount account.id).find a d = some st →
        st = ⟨true, 0, []⟩ := by
      intro a d st h
      rw [RunState.find_clearAccount] at h
      by_cases hk : a = account.id
      · rw [if_pos hk] at h; cases h
      · rw [if_neg hk] at h; exact hrs a d st h
    have hbody : ∀ a d st,
        ((match availLookup accountAvailability account.id with
          | some ds => ds.foldl (fun rs d => RunState.set rs account.id d ⟨true, 0, []⟩)
              (rs.clearAccount account.id)
          | none => rs.clearAccount account.id) : RunState).find a d = some st →
        st = ⟨true, 0, []⟩ := by
      cases havail : availLookup accountAvailability account.id with
      | some ds => exact hdays account.id ds _ hclear
      | none => exact hclear
    have := ih (match availLookup accountAvailability account.id with
      | some ds => ds.foldl (fun rs d => RunState.set rs account.id d ⟨true, 0, []⟩)
          (rs.clearAccount account.id)
      | none => rs.clearAccount account.id) hbody
    intro a d st h
    exact this a d st h

theorem effStatus_set_self (accountAvailability : AccountAvailability) (rs : RunState)
    (a0 : String) (d0 : Nat) (stx : AccountDailyRunStatus) :
    effStatus accountAvailability (rs.set a0 d0 stx) a0 d0 = stx := by
  unfold effStatus
  rw [RunState.find_set_self]

theorem effStatus_set_ne (accountAvailability : AccountAvailability) (rs : RunState)
    (a0 : String) (d0 : Nat) (stx : AccountDailyRunStatus) {a : String} {d : Nat}
    (h : ¬(a = a0 ∧ d = d0)) :
    effStatus accountAvailability (rs.set a0 d0 stx) a d =
      effStatus accountAvailability rs a d := by
  unfold effStatus
  rw [RunState.find_set_ne _ _ _ _ _ _ h]

theorem occupiesSlot_true_iff (a : String) (d : Nat) (p : ScheduledPurchase) :
    occupiesSlot a d p = true ↔
      (p.status ≠ PurchaseStatus.missed ∧ p.accountId = a ∧ p.purchaseDate = d) := by
  simp [occupiesSlot]

theorem activeOn_singleton_of_pos {p : ScheduledPurchase} {a : String} {d : Nat}
    (h : occupiesSlot a d p = true) : activeOn [p] a d = [p] := by
  simp [activeOn, List.filter, h]

theorem activeOn_singleton_of_neg {p : ScheduledPurchase} {a : String} {d : Nat}
    (h : occupiesSlot a d p = false) : activeOn [p] a d = [] := by
  simp [activeOn, List.filter, h]

theorem layerCommitment_fst_of_missed (accountAvailability : AccountAvailability)
    (acc : RunState × List EngineWarning) {p : ScheduledPurchase}
    (h : p.status = PurchaseStatus.missed) :
    (layerCommitment accountAvailability acc p).1 = acc.1 := by
  unfold layerCommitment
  rw [if_pos h]

theorem layerCommitment_fst_of_notMissed (accountAvailability : AccountAvailability)
    (acc : RunState × List EngineWarning) {p : ScheduledPurchase}
    (h : ¬p.status = PurchaseStatus.missed) :
    (layerCommitment accountAvailability acc p).1 =
      acc.1.set p.accountId p.purchaseDate
        ⟨false,
          (effStatus accountAvailability acc.1 p.accountId p.purchaseDate).purchaseCount + 1,
          setAddStr
            (effStatus accountAvailability acc.1 p.accountId
              p.purchaseDate).booksPurchasedToday p.bookId⟩ := by
  unfold layerCommitment
  rw [if_neg h]
  rfl

/-- One layering step preserves the invariant, extending the layered population
by the handled purchase. -/
theorem layerCommitment_inv (accountAvailability : AccountAvailability)
    (acc : RunState × List EngineWarning) (processed : List ScheduledPurchase)
    (p : ScheduledPurchase)
    (h : RsInv accountAvailability processed processed acc.1) :
    RsInv accountAvailability (processed ++ [p]) (processed ++ [p])
      (layerCommitment accountAvailability acc p).1 := by
  by_cases hm : p.status = PurchaseStatus.missed
  · rw [layerCommitment_fst_of_missed accountAvailability acc hm]
    have hocc : ∀ a d, occupiesSlot a d p = false := by
      intro a d
      rw [← Bool.not_eq_true, occupiesSlot_true_iff]
      rintro ⟨hne, _, _⟩
      exact hne hm
    refine ⟨?_, ?_, ?_⟩
    · intro a d
      rw [activeOn_append, activeOn_singleton_of_neg (hocc a d), List.append_nil]
      exact h.counts a d
    · intro q hq hqst
      rcases List.mem_append.mp hq with hq1 | hq1
      · exact h.books q hq1 hqst
      · rw [List.mem_singleton.mp hq1] at hqst
        exact absurd hm hqst
    · intro a d st hfind hunav hblk
      exact activeOn_append_ne_nil (h.blocked a d st hfind hunav hblk) [p]
  · rw [layerCommitment_fst_of_notMissed accountAvailability acc hm]
    have hocc : occupiesSlot p.accountId p.purchaseDate p = true :=
      (occupiesSlot_true_iff _ _ _).mpr ⟨hm, rfl, rfl⟩
    refine ⟨?_, ?_, ?_⟩
    · intro a d
      by_cases hk : a = p.accountId ∧ d = p.purchaseDate
      · rcases hk with ⟨rfl, rfl⟩
        rw [effStatus_set_self, activeOn_append, activeOn_singleton_of_pos hocc,
          List.length_append, List.length_singleton]
        simp only []
        rw [h.counts]
      · rw [effStatus_set_ne _ _ _ _ _ hk, activeOn_append]
        have hocc2 : occupiesSlot a d p = false := by
          rw [← Bool.not_eq_true, occupiesSlot_true_iff]
          rintro ⟨_, rfl, rfl⟩
          exact hk ⟨rfl, rfl⟩
        rw [activeOn_singleton_of_neg hocc2, List.append_nil]
        exact h.counts a d
    · intro q hq hqst
      rcases List.mem_append.mp hq with hq1 | hq1
      · by_cases hk : q.accountId = p.accountId ∧ q.purchaseDate = p.purchaseDate
        · rw [hk.1, hk.2, effStatus_set_self]
          have := h.books q hq1 hqst
          rw [hk.1, hk.2] at this
          exact setAddStr_subset p.bookId this
        · have hk2 : ¬(q.accountId = p.accountId ∧ q.purchaseDate = p.purchaseDate) := hk
          rw [effStatus_set_ne _ _ _ _ _ hk2]
          exact h.books q hq1 hqst
      · rw [List.mem_singleton.mp hq1]
        rw [effStatus_set_self]
        exact setAddStr_mem_self _ _
    · intro a d st hfind hunav hblk
      by_cases hk : a = p.accountId ∧ d = p.purchaseDate
      · rcases hk with ⟨rfl, rfl⟩
        rw [activeOn_append, activeOn_singleton_of_pos hocc]
        simp
      · rw [RunState.find_set_ne _ _ _ _ _ _ hk] at hfind
        exact activeOn_append_ne_nil (h.blocked a d st hfind hunav hblk) [p]

theorem layer_fold_inv (accountAvailability : AccountAvailability) :
    ∀ (l : List ScheduledPurchase) (acc : RunState × List EngineWarning)
      (processed : List ScheduledPurchase),
      RsInv accountAvailability processed processed acc.1 →
      RsInv accountAvailability (processed ++ l) (processed ++ l)
        (l.foldl (layerCommitment accountAvailability) acc).1 := by
  intro l
  induction l with
  | nil =>
    intro acc processed h
    simpa using h
  | cons p rest ih =>
    intro acc processed h
    rw [List.foldl_cons]
    have hstep := layerCommitment_inv accountAvailability acc processed p h
    have := ih (layerCommitment accountAvailability acc p) (processed ++ [p]) hstep
    rw [List.append_assoc, List.singleton_append] at this
    exact this

/-- The invariant holds for the fully initialized run state. -/
theorem initializeRunState_inv (existingCommittedSchedule : List ScheduledPurchase)
    (accountAvailability : AccountAvailability) (allAccounts : List Account) :
    RsInv accountAvailability existingCommittedSchedule existingCommittedSchedule
      (initializeRunState existingCommittedSchedule accountAvailability allAccounts).1 := by
  have hentries0 : ∀ a d st,
      (initAvailability accountAvailability allAccounts RunState.empty).find a d = some st →
      st = ⟨true, 0, []⟩ := by
    refine initAvailability_entries accountAvailability allAccounts RunState.empty ?_
    intro a d st h
    cases h
  have h0 : RsInv accountAvailability [] []
      (initAvailability accountAvailability allAccounts RunState.empty) := by
    refine ⟨?_, ?_, ?_⟩
    · intro a d
      unfold effStatus
      cases hfind : (initAvailability accountAvailability allAccounts RunState.empty).find a d with
      | some st => rw [hentries0 a d st hfind]; rfl
      | none => rfl
    · intro p hp
      cases hp
    · intro a d st hfind hunav _
      rw [hentries0 a d st hfind] at hunav
      cases hunav
  have := layer_fold_inv accountAvailability existingCommittedSchedule
    (initAvailability accountAvailability allAccounts RunState.empty, []) [] h0
  simpa using this

/-! ## Proof support: the per-task loop -/

theorem viableSlots_mem {accountAvailability : AccountAvailability} {rs : RunState}
    {bookId : String} {date : Nat} {accounts : List Account} {slot : String × Nat}
    (h : slot ∈ viableSlots accountAvailability rs bookId date accounts) :
    ∃ account ∈ accounts, account.id = slot.1 ∧
      passesConstraints accountAvailability rs bookId date account = true ∧
      (effStatus accountAvailability rs account.id date).purchaseCount = slot.2 := by
  unfold viableSlots at h
  obtain ⟨account, hmem, heq⟩ := List.mem_map.mp h
  have hfil := List.mem_filter.mp hmem
  exact ⟨account, hfil.1, congrArg Prod.fst heq, hfil.2, congrArg Prod.snd heq⟩

theorem passesConstraints_spec {accountAvailability : AccountAvailability}
    {rs : RunState} {bookId : String} {date : Nat} {account : Account}
    (h : passesConstraints accountAvailability rs bookId date account = true) :
    (effStatus accountAvailability rs account.id date).unavailable = false ∧
    (effStatus accountAvailability rs account.id date).purchaseCount <
      MAX_PURCHASES_PER_ACCOUNT_PER_DAY ∧
    bookId ∉ (effStatus accountAvailability rs account.id date).booksPurchasedToday := by
  unfold passesConstraints at h
  simp only [Bool.and_eq_true, Bool.not_eq_true', decide_eq_true_eq,
    Bool.not_eq_true, decide_eq_false_iff_not] at h
  exact ⟨h.1.1, h.1.2, h.2⟩

theorem processOneTask_eq_success (accountAvailability : AccountAvailability)
    (accounts : List Account) (today : Nat) (acc : EngineAcc) (task : TaskToSchedule)
    (aid : String) (date : Nat) (st0 : AccountDailyRunStatus)
    (hfound : (findSlotFrom accountAvailability accounts task.bookId
      MAX_SCHEDULING_ATTEMPT_DAYS today acc.rs).2 = some (aid, date))
    (hentry : ((findSlotFrom accountAvailability accounts task.bookId
      MAX_SCHEDULING_ATTEMPT_DAYS today acc.rs).1).find aid date = some st0) :
    processOneTask accountAvailability accounts today acc task =
      { acc with
          rs := ((findSlotFrom accountAvailability accounts task.bookId
              MAX_SCHEDULING_ATTEMPT_DAYS today acc.rs).1).set aid date
            ⟨st0.unavailable, st0.purchaseCount + 1,
              setAddStr st0.booksPurchasedToday task.bookId⟩
          scheduledItems := acc.scheduledItems ++ [mkScheduledItem task aid date] } := by
  unfold processOneTask
  dsimp only
  rw [hfound]
  dsimp only
  rw [hentry]

theorem processOneTask_eq_failure (accountAvailability : AccountAvailability)
    (accounts : List Account) (today : Nat) (acc : EngineAcc) (task : TaskToSchedule)
    (hnone : (findSlotFrom accountAvailability accounts task.bookId
      MAX_SCHEDULING_ATTEMPT_DAYS today acc.rs).2 = none) :
    processOneTask accountAvailability accounts today acc task =
      { acc with
          rs := (findSlotFrom accountAvailability accounts task.bookId
            MAX_SCHEDULING_ATTEMPT_DAYS today acc.rs).1
          warnings := acc.warnings ++
            [EngineWarning.unschedulableTask task.reviewId task.bookId]
          unschedulableTasks := acc.unschedulableTasks ++ [task] } := by
  unfold processOneTask
  dsimp only
  rw [hnone]

/-- The engine loop invariant: the run state mirrors the committed schedule plus
the items scheduled so far, every new item is a well-formed `pending` commitment
whose dependent date sits exactly `MIN_REVIEW_DELAY_DAYS` after its purchase
date, all per-(account, day) counts stay within the cap, the per-(account, day)
book exclusivity holds, and a new item sitting on a blocklisted day is always
explained by a pre-existing committed purchase there. -/
structure EngineInv (accountAvailability : AccountAvailability)
    (committed : List ScheduledPurchase) (acc : EngineAcc) : Prop where
  inv : RsInv accountAvailability (committed ++ acc.scheduledItems) committed acc.rs
  pending : ∀ p ∈ acc.scheduledItems, p.status = PurchaseStatus.pending
  delay : ∀ p ∈ acc.scheduledItems,
    p.reviewDate = addDays p.purchaseDate MIN_REVIEW_DELAY_DAYS
  ids : ∀ p ∈ acc.scheduledItems, p.purchaseId = p.reviewId
  cap : (∀ a d, (activeOn committed a d).length ≤ MAX_PURCHASES_PER_ACCOUNT_PER_DAY) →
    ∀ a d, (effStatus accountAvailability acc.rs a d).purchaseCount ≤
      MAX_PURCHASES_PER_ACCOUNT_PER_DAY
  pw : (∀ a d, (activeOn committed a d).Pairwise (fun p q => p.bookId ≠ q.bookId)) →
    ∀ a d, (activeOn (committed ++ acc.scheduledItems) a d).Pairwise
      (fun p q => p.bookId ≠ q.bookId)
  blockedSched : ∀ p ∈ acc.scheduledItems,
    isAccountUnavailableOnDate p.accountId p.purchaseDate accountAvailability = true →
    activeOn committed p.accountId p.purchaseDate ≠ []

theorem processOneTask_inv (accountAvailability : AccountAvailability)
    (accounts : List Account) (today : Nat) (committed : List ScheduledPurchase)
    (acc : EngineAcc) (task : TaskToSchedule)
    (h : EngineInv accountAvailability committed acc) :
    EngineInv accountAvailability committed
      (processOneTask accountAvailability accounts today acc task) := by
  have hext := findSlot_extends accountAvailability accounts task.bookId
    MAX_SCHEDULING_ATTEMPT_DAYS today acc.rs
  cases hres : (findSlotFrom accountAvailability accounts task.bookId
      MAX_SCHEDULING_ATTEMPT_DAYS today acc.rs).2 with
  | none =>
    rw [processOneTask_eq_failure accountAvailability accounts today acc task hres]
    refine ⟨h.inv.extendsDefault hext, h.pending, h.delay, h.ids, ?_, h.pw, h.blockedSched⟩
    intro Hcap a d
    rw [hext.effStatus_eq]
    exact h.cap Hcap a d
  | some slot =>
    obtain ⟨aid, date⟩ := slot
    obtain ⟨_, _, _, ⟨load, hload⟩, hentries⟩ :=
      findSlot_some accountAvailability accounts task.bookId
        MAX_SCHEDULING_ATTEMPT_DAYS today acc.rs aid date hres
    obtain ⟨account, hacct, haid, hpass, _⟩ := viableSlots_mem (chooseMinLoad_mem hload)
    obtain ⟨hunav, hcnt, hbook⟩ := passesConstraints_spec hpass
    rw [haid] at hunav hcnt hbook
    have hentry : ((findSlotFrom accountAvailability accounts task.bookId
        MAX_SCHEDULING_ATTEMPT_DAYS today acc.rs).1).find aid date =
        some (effStatus accountAvailability acc.rs aid date) := by
      have := hentries account hacct
      rw [haid] at this
      exact this
    set st0 := effStatus accountAvailability acc.rs aid date with hst0
    set item := mkScheduledItem task aid date with hitem
    rw [processOneTask_eq_success accountAvailability accounts today acc task aid date
      st0 hres hentry]
    set F := (findSlotFrom accountAvailability accounts task.bookId
      MAX_SCHEDULING_ATTEMPT_DAYS today acc.rs).1 with hF
    have hinvF : RsInv accountAvailability (committed ++ acc.scheduledItems) committed F :=
      h.inv.extendsDefault hext
    have heffF : ∀ a d, effStatus accountAvailability F a d =
        effStatus accountAvailability acc.rs a d := fun a d => hext.effStatus_eq a d
    have hoccitem : occupiesSlot aid date item = true := by
      rw [occupiesSlot_true_iff, hitem]
      simp [mkScheduledItem]
    have hoccother : ∀ a d, ¬(a = aid ∧ d = date) → occupiesSlot a d item = false := by
      intro a d hk
      rw [← Bool.not_eq_true, occupiesSlot_true_iff]
      rintro ⟨_, ha, hd⟩
      rw [hitem] at ha hd
      exact hk ⟨ha.symm, hd.symm⟩
    have hbase : ∀ l : List ScheduledPurchase,
        committed ++ (acc.scheduledItems ++ l) = (committed ++ acc.scheduledItems) ++ l :=
      fun l => (List.append_assoc _ _ _).symm
    refine ⟨⟨?_, ?_, ?_⟩, ?_, ?_, ?_, ?_, ?_, ?_⟩
    · -- counts
      intro a d
      rw [hbase, activeOn_append]
      by_cases hk : a = aid ∧ d = date
      · rcases hk with ⟨rfl, rfl⟩
        rw [effStatus_set_self, activeOn_singleton_of_pos hoccitem,
          List.length_append, List.length_singleton]
        rw [hst0, ← heffF a d, hinvF.counts a d]
      · rw [effStatus_set_ne _ _ _ _ _ hk, activeOn_singleton_of_neg (hoccother a d hk),
          List.append_nil, hinvF.counts a d]
    · -- books
      intro q hq hqst
      rw [hbase] at hq
      rcases List.mem_append.mp hq with hq1 | hq1
      · by_cases hk : q.accountId = aid ∧ q.purchaseDate = date
        · rw [hk.1, hk.2, effStatus_set_self]
          have := hinvF.books q hq1 hqst
          rw [hk.1, hk.2, heffF] at this
          exact setAddStr_subset task.bookId this
        · rw [effStatus_set_ne _ _ _ _ _ hk]
          exact hinvF.books q hq1 hqst
      · rw [List.mem_singleton.mp hq1]
        have : item.accountId = aid ∧ item.purchaseDate = date := by
          rw [hitem]
          exact ⟨rfl, rfl⟩
        rw [this.1, this.2, effStatus_set_self]
        have hib : item.bookId = task.bookId := by rw [hitem]; rfl
        rw [hib]
        exact setAddStr_mem_self _ _
    · -- blocked
      intro a d st hfind hunav2 hblk
      by_cases hk : a = aid ∧ d = date
      · rcases hk with ⟨rfl, rfl⟩
        rw [RunState.find_set_self] at hfind
        refine hinvF.blocked_witness ?_ hblk
        rw [heffF, ← hst0]
        exact hunav
      · rw [RunState.find_set_ne _ _ _ _ _ _ hk] at hfind
        exact hinvF.blocked a d st hfind hunav2 hblk
    · -- pending
      intro p hp
      rcases List.mem_append.mp hp with hp1 | hp1
      · exact h.pending p hp1
      · rw [List.mem_singleton.mp hp1]
        rfl
    · -- delay
      intro p hp
      rcases List.mem_append.mp hp with hp1 | hp1
      · exact h.delay p hp1
      · rw [List.mem_singleton.mp hp1]
        rfl
    · -- ids
      intro p hp
      rcases List.mem_append.mp hp with hp1 | hp1
      · exact h.ids p hp1
      · rw [List.mem_singleton.mp hp1]
        rfl
    · -- cap
      intro Hcap a d
      by_cases hk : a = aid ∧ d = date
      · rcases hk with ⟨rfl, rfl⟩
        rw [effStatus_set_self]
        exact hcnt
      · rw [effStatus_set_ne _ _ _ _ _ hk, heffF]
        exact h.cap Hcap a d
    · -- pairwise
      intro Hpw a d
      rw [hbase, activeOn_append]
      by_cases hk : a = aid ∧ d = date
      · rcases hk with ⟨rfl, rfl⟩
        rw [activeOn_singleton_of_pos hoccitem]
        rw [List.pairwise_append]
        refine ⟨h.pw Hpw a d, List.pairwise_singleton _ _, ?_⟩
        intro q hq r hr
        rw [List.mem_singleton.mp hr]
        have hqmem := mem_of_mem_activeOn hq
        have hqbook := h.inv.books q hqmem.1 hqmem.2.1
        rw [hqmem.2.2.1, hqmem.2.2.2, ← hst0] at hqbook
        have hib : item.bookId = task.bookId := by rw [hitem]; rfl
        rw [hib]
        intro hcontra
        rw [hcontra] at hqbook
        exact hbook hqbook
      · rw [activeOn_singleton_of_neg (hoccother a d hk), List.append_nil]
        exact h.pw Hpw a d
    · -- blockedSched
      intro p hp hblk
      rcases List.mem_append.mp hp with hp1 | hp1
      · exact h.blockedSched p hp1 hblk
      · rw [List.mem_singleton.mp hp1] at hblk ⊢
        have hpa : item.accountId = aid := by rw [hitem]; rfl
        have hpd : item.purchaseDate = date := by rw [hitem]; rfl
        rw [hpa, hpd] at hblk ⊢
        refine h.inv.blocked_witness ?_ hblk
        rw [← hst0]
        exact hunav

theorem engine_fold_inv (accountAvailability : AccountAvailability)
    (accounts : List Account) (today : Nat) (committed : List ScheduledPurchase) :
    ∀ (tasks : List TaskToSchedule) (acc : EngineAcc),
      EngineInv accountAvailability committed acc →
      EngineInv accountAvailability committed
        (tasks.foldl (processOneTask accountAvailability accounts today) acc) := by
  intro tasks
  induction tasks with
  | nil => intro acc h; exact h
  | cons t rest ih =>
    intro acc h
    rw [List.foldl_cons]
    exact ih _ (processOneTask_inv accountAvailability accounts today committed acc t h)

/-- Structural unfolding of `generateSchedule` into its task fold. -/
theorem generateSchedule_eq (tasksToProcess : List TaskToSchedule)
    (existingCommittedSchedule : List ScheduledPurchase) (allAccounts : List Account)
    (accountAvailability : AccountAvailability) (today : Nat) :
    generateSchedule tasksToProcess existingCommittedSchedule allAccounts
        accountAvailability today =
      (⟨(tasksToProcess.foldl (processOneTask accountAvailability allAccounts today)
          ⟨(initializeRunState existingCommittedSchedule accountAvailability allAccounts).1,
            [], [],
            (initializeRunState existingCommittedSchedule accountAvailability
              allAccounts).2⟩).scheduledItems,
        (tasksToProcess.foldl (processOneTask accountAvailability allAccounts today)
          ⟨(initializeRunState existingCommittedSchedule accountAvailability allAccounts).1,
            [], [],
            (initializeRunState existingCommittedSchedule accountAvailability
              allAccounts).2⟩).unschedulableTasks⟩,
       (tasksToProcess.foldl (processOneTask accountAvailability allAccounts today)
          ⟨(initializeRunState existingCommittedSchedule accountAvailability allAccounts).1,
            [], [],
            (initializeRunState existingCommittedSchedule accountAvailability
              allAccounts).2⟩).warnings) := rfl

/-- All structural properties of one engine run, relative to a committed input
that satisfies the capacity and book-exclusivity invariants. -/
theorem generateSchedule_props (tasksToProcess : List TaskToSchedule)
    (existingCommittedSchedule : List ScheduledPurchase) (allAccounts : List Account)
    (accountAvailability : AccountAvailability) (today : Nat)
    (Hcap : ∀ a d, (activeOn existingCommittedSchedule a d).length ≤
      MAX_PURCHASES_PER_ACCOUNT_PER_DAY)
    (Hpw : ∀ a d, (activeOn existingCommittedSchedule a d).Pairwise
      (fun p q => p.bookId ≠ q.bookId)) :
    (∀ a d, (activeOn (existingCommittedSchedule ++
        (generateSchedule tasksToProcess existingCommittedSchedule allAccounts
          accountAvailability today).1.scheduledItems) a d).length ≤
      MAX_PURCHASES_PER_ACCOUNT_PER_DAY) ∧
    (∀ a d, (activeOn (existingCommittedSchedule ++
        (generateSchedule tasksToProcess existingCommittedSchedule allAccounts
          accountAvailability today).1.scheduledItems) a d).Pairwise
      (fun p q => p.bookId ≠ q.bookId)) ∧
    (∀ p ∈ (generateSchedule tasksToProcess existingCommittedSchedule allAccounts
        accountAvailability today).1.scheduledItems,
      p.status = PurchaseStatus.pending ∧
      p.reviewDate = addDays p.purchaseDate MIN_REVIEW_DELAY_DAYS ∧
      p.purchaseId = p.reviewId ∧
      (isAccountUnavailableOnDate p.accountId p.purchaseDate accountAvailability = true →
        activeOn existingCommittedSchedule p.accountId p.purchaseDate ≠ [])) := by
  have hinit := initializeRunState_inv existingCommittedSchedule accountAvailability
    allAccounts
  have hstart : EngineInv accountAvailability existingCommittedSchedule
      ⟨(initializeRunState existingCommittedSchedule accountAvailability allAccounts).1,
        [], [],
        (initializeRunState existingCommittedSchedule accountAvailability allAccounts).2⟩ := by
    refine ⟨?_, ?_, ?_, ?_, ?_, ?_, ?_⟩
    · simpa using hinit
    · intro p hp; cases hp
    · intro p hp; cases hp
    · intro p hp; cases hp
    · intro Hcap a d
      rw [hinit.counts a d]
      exact Hcap a d
    · intro Hpw a d
      simpa using Hpw a d
    · intro p hp; cases hp
  have hfinal := engine_fold_inv accountAvailability allAccounts today
    existingCommittedSchedule tasksToProcess _ hstart
  rw [generateSchedule_eq]
  refine ⟨?_, ?_, ?_⟩
  · intro a d
    rw [← hfinal.inv.counts a d]
    exact hfinal.cap Hcap a d
  · intro a d
    exact hfinal.pw Hpw a d
  · intro p hp
    exact ⟨hfinal.pending p hp, hfinal.delay p hp, hfinal.ids p hp,
      fun hblk => hfinal.blockedSched p hp hblk⟩

theorem findSlot_none_of_empty (accountAvailability : AccountAvailability)
    (accounts : List Account) (bookId : String) (fuel : Nat) (start : Nat)
    (rs : RunState)
    (hempty : ∀ e, start ≤ e → e < start + fuel →
      viableSlots accountAvailability rs bookId e accounts = []) :
    (findSlotFrom accountAvailability accounts bookId fuel start rs).2 = none := by
  cases hres : (findSlotFrom accountAvailability accounts bookId fuel start rs).2 with
  | none => rfl
  | some slot =>
    obtain ⟨aid, date⟩ := slot
    obtain ⟨h1, h2, _, ⟨load, hload⟩, _⟩ := findSlot_some accountAvailability accounts
      bookId fuel start rs aid date hres
    rw [hempty date h1 h2] at hload
    simp [chooseMinLoad] at hload

theorem findSlot_some_entry (accountAvailability : AccountAvailability)
    (accounts : List Account) (bookId : String) (fuel : Nat) (start : Nat)
    (rs : RunState) (aid : String) (date : Nat)
    (hres : (findSlotFrom accountAvailability accounts bookId fuel start rs).2 =
      some (aid, date)) :
    ((findSlotFrom accountAvailability accounts bookId fuel start rs).1).find aid date =
      some (effStatus accountAvailability rs aid date) := by
  obtain ⟨_, _, _, ⟨load, hload⟩, hentries⟩ := findSlot_some accountAvailability accounts
    bookId fuel start rs aid date hres
  obtain ⟨account, hacct, haid, _, _⟩ := viableSlots_mem (chooseMinLoad_mem hload)
  have h := hentries account hacct
  rw [haid] at h
  exact h

theorem engine_fold_empty_accounts (accountAvailability : AccountAvailability)
    (today : Nat) :
    ∀ (tasks : List TaskToSchedule) (acc : EngineAcc),
      (tasks.foldl (processOneTask accountAvailability [] today) acc).scheduledItems =
        acc.scheduledItems ∧
      (tasks.foldl (processOneTask accountAvailability [] today) acc).unschedulableTasks =
        acc.unschedulableTasks ++ tasks ∧
      (tasks.foldl (processOneTask accountAvailability [] today) acc).warnings =
        acc.warnings ++
          tasks.map (fun t => EngineWarning.unschedulableTask t.reviewId t.bookId) := by
  intro tasks
  induction tasks with
  | nil =>
    intro acc
    simp
  | cons t rest ih =>
    intro acc
    rw [List.foldl_cons]
    have hnone := findSlot_none_of_empty accountAvailability [] t.bookId
      MAX_SCHEDULING_ATTEMPT_DAYS today acc.rs (fun e _ _ => rfl)
    rw [processOneTask_eq_failure accountAvailability [] today acc t hnone]
    obtain ⟨h1, h2, h3⟩ := ih
      { acc with
          rs := (findSlotFrom accountAvailability [] t.bookId
            MAX_SCHEDULING_ATTEMPT_DAYS today acc.rs).1
          warnings := acc.warnings ++
            [EngineWarning.unschedulableTask t.reviewId t.bookId]
          unschedulableTasks := acc.unschedulableTasks ++ [t] }
    refine ⟨by simpa using h1, ?_, ?_⟩
    · rw [h2]
      simp
    · rw [h3]
      simp

theorem generateSchedule_empty_accounts (tasksToProcess : List TaskToSchedule)
    (existingCommittedSchedule : List ScheduledPurchase)
    (accountAvailability : AccountAvailability) (today : Nat) :
    (generateSchedule tasksToProcess existingCommittedSchedule []
        accountAvailability today).1.scheduledItems = [] ∧
    (generateSchedule tasksToProcess existingCommittedSchedule []
        accountAvailability today).1.unschedulableTasks = tasksToProcess ∧
    (generateSchedule tasksToProcess existingCommittedSchedule []
        accountAvailability today).2 =
      (initializeRunState existingCommittedSchedule accountAvailability []).2 ++
        tasksToProcess.map
          (fun t => EngineWarning.unschedulableTask t.reviewId t.bookId) := by
  rw [generateSchedule_eq]
  obtain ⟨h1, h2, h3⟩ := engine_fold_empty_accounts accountAvailability today
    tasksToProcess
    ⟨(initializeRunState existingCommittedSchedule accountAvailability []).1, [], [],
      (initializeRunState existingCommittedSchedule accountAvailability []).2⟩
  exact ⟨by simpa using h1, by simpa using h2, by simpa using h3⟩

/-- Every item a run schedules is the record literal built from one of the
processed tasks. -/
theorem engine_fold_origin (accountAvailability : AccountAvailability)
    (accounts : List Account) (today : Nat) :
    ∀ (tasks : List TaskToSchedule) (acc : EngineAcc) (p : ScheduledPurchase),
      p ∈ (tasks.foldl (processOneTask accountAvailability accounts today)
        acc).scheduledItems →
      p ∈ acc.scheduledItems ∨
        ∃ t ∈ tasks, ∃ aid : String, ∃ date : Nat, p = mkScheduledItem t aid date := by
  intro tasks
  induction tasks with
  | nil =>
    intro acc p hp
    exact Or.inl hp
  | cons t rest ih =>
    intro acc p hp
    rw [List.foldl_cons] at hp
    rcases ih _ p hp with h1 | ⟨t2, ht2, aid, date, hpe⟩
    · cases hres : (findSlotFrom accountAvailability accounts t.bookId
          MAX_SCHEDULING_ATTEMPT_DAYS today acc.rs).2 with
      | none =>
        rw [processOneTask_eq_failure accountAvailability accounts today acc t hres] at h1
        exact Or.inl h1
      | some slot =>
        obtain ⟨aid, date⟩ := slot
        have hentry := findSlot_some_entry accountAvailability accounts t.bookId
          MAX_SCHEDULING_ATTEMPT_DAYS today acc.rs aid date hres
        rw [processOneTask_eq_success accountAvailability accounts today acc t aid date
          _ hres hentry] at h1
        rcases List.mem_append.mp h1 with h2 | h2
        · exact Or.inl h2
        · exact Or.inr ⟨t, List.mem_cons_self _ _, aid, date, List.mem_singleton.mp h2⟩
    · exact Or.inr ⟨t2, List.mem_cons.mpr (Or.inr ht2), aid, date, hpe⟩

/-! ## Proof support: the coordinator -/

theorem insertByDate_perm (p : ScheduledPurchase) (l : List ScheduledPurchase) :
    (insertByDate p l).Perm (p :: l) := by
  induction l with
  | nil => exact List.Perm.refl _
  | cons q qs ih =>
    unfold insertByDate
    by_cases h : p.purchaseDate < q.purchaseDate
    · rw [if_pos h]
    · rw [if_neg h]
      exact (ih.cons q).trans (List.Perm.swap p q qs)

theorem sortByPurchaseDate_perm (l : List ScheduledPurchase) :
    (sortByPurchaseDate l).Perm l := by
  induction l with
  | nil => exact List.Perm.refl _
  | cons p rest ih =>
    unfold sortByPurchaseDate at ih ⊢
    rw [List.foldr_cons]
    exact (insertByDate_perm p _).trans (ih.cons p)

/-- The data-model invariants of §3, as a predicate on a purchase list: all
statuses are `pending`/`completed`, dependent dates sit exactly the fixed delay
after the assigned date, per-(account, day) counts respect the cap, and
per-(account, day) book ids are pairwise distinct. -/
def GoodList (l : List ScheduledPurchase) : Prop :=
  (∀ p ∈ l, p.status = PurchaseStatus.pending ∨ p.status = PurchaseStatus.completed) ∧
  (∀ p ∈ l, p.reviewDate = addDays p.purchaseDate MIN_REVIEW_DELAY_DAYS) ∧
  (∀ a d, (activeOn l a d).length ≤ MAX_PURCHASES_PER_ACCOUNT_PER_DAY) ∧
  (∀ a d, (activeOn l a d).Pairwise (fun p q => p.bookId ≠ q.bookId))

/-- The canonical-set invariant of a coordinator state. -/
def GoodState (st : ManagerState) : Prop := GoodList st.masterSchedule

theorem bookNe_symmetric : Symmetric (fun p q : ScheduledPurchase => p.bookId ≠ q.bookId) :=
  fun _ _ h he => h he.symm

theorem GoodList.perm {l l' : List ScheduledPurchase} (hp : l.Perm l')
    (h : GoodList l) : GoodList l' := by
  obtain ⟨h1, h2, h3, h4⟩ := h
  refine ⟨?_, ?_, ?_, ?_⟩
  · intro p hmem
    exact h1 p (hp.mem_iff.mpr hmem)
  · intro p hmem
    exact h2 p (hp.mem_iff.mpr hmem)
  · intro a d
    have hpf := hp.filter (occupiesSlot a d)
    have h3x := h3 a d
    unfold activeOn at h3x ⊢
    rw [← hpf.length_eq]
    exact h3x
  · intro a d
    have hpf := hp.filter (occupiesSlot a d)
    have h4x := h4 a d
    unfold activeOn at h4x ⊢
    exact (hpf.pairwise_iff (fun h he => h he.symm)).mp h4x

theorem GoodList.sublist {l l' : List ScheduledPurchase} (hs : l'.Sublist l)
    (h : GoodList l) : GoodList l' := by
  obtain ⟨h1, h2, h3, h4⟩ := h
  refine ⟨?_, ?_, ?_, ?_⟩
  · intro p hmem
    exact h1 p (hs.subset hmem)
  · intro p hmem
    exact h2 p (hs.subset hmem)
  · intro a d
    exact Nat.le_trans (hs.filter (occupiesSlot a d)).length_le (h3 a d)
  · intro a d
    exact (h4 a d).sublist (hs.filter (occupiesSlot a d))

theorem splitAtPurchaseId_some_spec (purchaseId : String) :
    ∀ (l A : List ScheduledPurchase) (p : ScheduledPurchase) (B : List ScheduledPurchase),
      splitAtPurchaseId purchaseId l = some (A, p, B) →
      l = A ++ p :: B ∧ p.purchaseId = purchaseId ∧
        ∀ q ∈ A, q.purchaseId ≠ purchaseId := by
  intro l
  induction l with
  | nil =>
    intro A p B h
    cases h
  | cons q rest ih =>
    intro A p B h
    unfold splitAtPurchaseId at h
    by_cases hq : q.purchaseId = purchaseId
    · rw [if_pos hq] at h
      injection h with h
      injection h with hA h
      injection h with hp hB
      rw [← hA, ← hp, ← hB]
      exact ⟨rfl, hq, by intro r hr; cases hr⟩
    · rw [if_neg hq] at h
      cases hrec : splitAtPurchaseId purchaseId rest with
      | none =>
        rw [hrec] at h
        cases h
      | some s =>
        rw [hrec] at h
        injection h with h
        obtain ⟨A₁, p₁, B₁⟩ := s
        obtain ⟨hl, hpid, hA⟩ := ih A₁ p₁ B₁ hrec
        injection h with hA2 h
        injection h with hp2 hB2
        rw [← hA2, ← hp2, ← hB2]
        refine ⟨by rw [hl]; rfl, hpid, ?_⟩
        intro r hr
        rcases List.mem_cons.mp hr with rfl | hr2
        · exact hq
        · exact hA r hr2

theorem splitAtPurchaseId_none_spec (purchaseId : String) :
    ∀ l : List ScheduledPurchase,
      splitAtPurchaseId purchaseId l = none ↔ ∀ p ∈ l, p.purchaseId ≠ purchaseId := by
  intro l
  induction l with
  | nil =>
    constructor
    · intro _ p hp
      cases hp
    · intro _
      rfl
  | cons q rest ih =>
    unfold splitAtPurchaseId
    by_cases hq : q.purchaseId = purchaseId
    · rw [if_pos hq]
      constructor
      · intro h
        cases h
      · intro h
        exact absurd hq (h q (List.mem_cons_self _ _))
    · rw [if_neg hq]
      constructor
      · intro h p hp
        rcases List.mem_cons.mp hp with rfl | hp2
        · exact hq
        · exact (ih.mp (Option.map_eq_none'.mp h)) p hp2
      · intro h
        rw [Option.map_eq_none']
        exact ih.mpr (fun p hp => h p (List.mem_cons.mpr (Or.inr hp)))

theorem logAudit_masterSchedule (st : ManagerState) (action : AuditAction) :
    (logAudit st action).masterSchedule = st.masterSchedule := rfl

theorem logAudit_allAccounts (st : ManagerState) (action : AuditAction) :
    (logAudit st action).allAccounts = st.allAccounts := rfl

theorem logAudit_accountAvailability (st : ManagerState) (action : AuditAction) :
    (logAudit st action).accountAvailability = st.accountAvailability := rfl

theorem warnFold_masterSchedule (action : AuditAction) :
    ∀ (l : List EngineWarning) (s : ManagerState),
      (l.foldl (fun s _ => logAudit s action) s).masterSchedule = s.masterSchedule := by
  intro l
  induction l with
  | nil => intro s; rfl
  | cons w ws ih =>
    intro s
    rw [List.foldl_cons]
    exact ih _

theorem processTasks_masterSchedule (st : ManagerState)
    (tasksToProcess : List TaskToSchedule) (today : Nat)
    (h : tasksToProcess.isEmpty = false) :
    (processTasks st tasksToProcess today).masterSchedule =
      sortByPurchaseDate (st.masterSchedule.filter statusIsCommitted ++
        (generateSchedule tasksToProcess (st.masterSchedule.filter statusIsCommitted)
          st.allAccounts st.accountAvailability today).1.scheduledItems) := by
  unfold processTasks
  rw [h]
  dsimp only
  simp only [Bool.false_eq_true, if_false, logAudit_masterSchedule, logAudit_allAccounts,
    logAudit_accountAvailability, apply_ite (fun s : ManagerState => s.masterSchedule),
    ite_self]

theorem activeOn_filter_sublist (l : List ScheduledPurchase) (a : String) (d : Nat) :
    (activeOn (l.filter statusIsCommitted) a d).Sublist (activeOn l a d) :=
  (List.filter_sublist l).filter (occupiesSlot a d)

/-- Merging an engine run into a canonical set that satisfies the data-model
invariants preserves them. -/
theorem goodList_merge (master : List ScheduledPurchase)
    (tasksToProcess : List TaskToSchedule) (allAccounts : List Account)
    (accountAvailability : AccountAvailability) (today : Nat)
    (h : GoodList master) :
    GoodList (sortByPurchaseDate (master.filter statusIsCommitted ++
      (generateSchedule tasksToProcess (master.filter statusIsCommitted) allAccounts
        accountAvailability today).1.scheduledItems)) := by
  obtain ⟨h1, h2, h3, h4⟩ := h
  have hcsub : (master.filter statusIsCommitted).Sublist master := List.filter_sublist _
  have Hcap : ∀ a d, (activeOn (master.filter statusIsCommitted) a d).length ≤
      MAX_PURCHASES_PER_ACCOUNT_PER_DAY :=
    fun a d => Nat.le_trans (activeOn_filter_sublist master a d).length_le (h3 a d)
  have Hpw : ∀ a d, (activeOn (master.filter statusIsCommitted) a d).Pairwise
      (fun p q => p.bookId ≠ q.bookId) :=
    fun a d => (h4 a d).sublist (activeOn_filter_sublist master a d)
  obtain ⟨hc, hp, hprops⟩ := generateSchedule_props tasksToProcess
    (master.filter statusIsCommitted) allAccounts accountAvailability today Hcap Hpw
  refine GoodList.perm (sortByPurchaseDate_perm _).symm ⟨?_, ?_, hc, hp⟩
  · intro p hmem
    rcases List.mem_append.mp hmem with hm | hm
    · exact h1 p (hcsub.subset hm)
    · exact Or.inl (hprops p hm).1
  · intro p hmem
    rcases List.mem_append.mp hmem with hm | hm
    · exact h2 p (hcsub.subset hm)
    · exact (hprops p hm).2.1

theorem processTasks_good (st : ManagerState) (tasksToProcess : List TaskToSchedule)
    (today : Nat) (h : GoodState st) : GoodState (processTasks st tasksToProcess today) := by
  cases he : tasksToProcess.isEmpty with
  | true =>
    unfold processTasks
    rw [he]
    exact h
  | false =>
    unfold GoodState
    rw [processTasks_masterSchedule st tasksToProcess today he]
    exact goodList_merge st.masterSchedule tasksToProcess st.allAccounts
      st.accountAvailability today h

theorem auditFold_masterSchedule {α : Type} (action : AuditAction) :
    ∀ (l : List α) (s : ManagerState),
      (l.foldl (fun s _ => logAudit s action) s).masterSchedule = s.masterSchedule := by
  intro l
  induction l with
  | nil => intro s; rfl
  | cons w ws ih =>
    intro s
    rw [List.foldl_cons]
    exact ih _

theorem markPurchaseStatus_eq_not_found (st : ManagerState) (purchaseId : String)
    (status : PurchaseStatus) (today : Nat)
    (h : splitAtPurchaseId purchaseId st.masterSchedule = none) :
    markPurchaseStatus st purchaseId status today =
      (logAudit st AuditAction.MARK_STATUS_FAIL,
       Except.error ("Purchase with ID " ++ purchaseId ++ " not found in schedule.")) := by
  unfold markPurchaseStatus
  rw [h]

theorem markPurchaseStatus_eq_same (st : ManagerState) (purchaseId : String)
    (status : PurchaseStatus) (today : Nat) (A : List ScheduledPurchase)
    (p : ScheduledPurchase) (B : List ScheduledPurchase)
    (h : splitAtPurchaseId purchaseId st.masterSchedule = some (A, p, B))
    (hs : p.status = status) :
    markPurchaseStatus st purchaseId status today = (st, Except.ok ()) := by
  unfold markPurchaseStatus
  rw [h]
  dsimp only
  rw [if_pos hs]

theorem markPurchaseStatus_eq_update (st : ManagerState) (purchaseId : String)
    (status : PurchaseStatus) (today : Nat) (A : List ScheduledPurchase)
    (p : ScheduledPurchase) (B : List ScheduledPurchase)
    (h : splitAtPurchaseId purchaseId st.masterSchedule = some (A, p, B))
    (hs : ¬p.status = status)
    (hns : ¬(status = PurchaseStatus.missed ∨ status = PurchaseStatus.delayed)) :
    markPurchaseStatus st purchaseId status today =
      (logAudit { st with masterSchedule := A ++ { p with status := status } :: B }
        AuditAction.PURCHASE_STATUS_UPDATED, Except.ok ()) := by
  unfold markPurchaseStatus
  rw [h]
  dsimp only
  rw [if_neg hs, if_neg hns]

theorem markPurchaseStatus_eq_reschedule (st : ManagerState) (purchaseId : String)
    (status : PurchaseStatus) (today : Nat) (A : List ScheduledPurchase)
    (p : ScheduledPurchase) (B : List ScheduledPurchase)
    (h : splitAtPurchaseId purchaseId st.masterSchedule = some (A, p, B))
    (hs : ¬p.status = status)
    (hrs : status = PurchaseStatus.missed ∨ status = PurchaseStatus.delayed) :
    markPurchaseStatus st purchaseId status today =
      (processTasks
        { st with
            masterSchedule := A ++ B
            auditLog := (st.auditLog ++ [AuditAction.PURCHASE_STATUS_UPDATED]) ++
              [AuditAction.TASK_FLAGGED_FOR_RESCHEDULE] }
        (scheduledItemsToTasks [{ p with status := status }]) today, Except.ok ()) := by
  unfold markPurchaseStatus
  rw [h]
  dsimp only
  rw [if_neg hs, if_pos hrs]
  rfl

theorem occupiesSlot_replace (a : String) (d : Nat) (p : ScheduledPurchase)
    (s : PurchaseStatus) (hpn : p.status ≠ PurchaseStatus.missed)
    (hsn : s ≠ PurchaseStatus.missed) :
    occupiesSlot a d { p with status := s } = occupiesSlot a d p := by
  unfold occupiesSlot
  rw [decide_eq_decide]
  constructor
  · rintro ⟨_, h2, h3⟩
    exact ⟨hpn, h2, h3⟩
  · rintro ⟨_, h2, h3⟩
    exact ⟨hsn, h2, h3⟩

theorem activeOn_middle (A B : List ScheduledPurchase) (x : ScheduledPurchase)
    (a : String) (d : Nat) :
    activeOn (A ++ x :: B) a d =
      activeOn A a d ++ (activeOn [x] a d ++ activeOn B a d) := by
  rw [show (x :: B) = [x] ++ B from rfl, activeOn_append, activeOn_append]

theorem goodList_replace_status (A B : List ScheduledPurchase) (p : ScheduledPurchase)
    (status : PurchaseStatus)
    (hspc : status = PurchaseStatus.pending ∨ status = PurchaseStatus.completed)
    (h : GoodList (A ++ p :: B)) :
    GoodList (A ++ { p with status := status } :: B) := by
  obtain ⟨h1, h2, h3, h4⟩ := h
  have hpmem : p ∈ A ++ p :: B :=
    List.mem_append.mpr (Or.inr (List.mem_cons_self _ _))
  have hpn : p.status ≠ PurchaseStatus.missed := by
    rcases h1 p hpmem with hx | hx <;> rw [hx] <;> intro hc <;> cases hc
  have hsn : status ≠ PurchaseStatus.missed := by
    rcases hspc with rfl | rfl <;> intro hc <;> cases hc
  have hmapeq : ∀ a d,
      (activeOn (A ++ { p with status := status } :: B) a d).map (fun q => q.bookId) =
        (activeOn (A ++ p :: B) a d).map (fun q => q.bookId) := by
    intro a d
    rw [activeOn_middle, activeOn_middle]
    simp only [List.map_append]
    congr 1
    congr 1
    cases hoc : occupiesSlot a d p with
    | false =>
      rw [activeOn_singleton_of_neg hoc,
        activeOn_singleton_of_neg ((occupiesSlot_replace a d p status hpn hsn).trans hoc)]
    | true =>
      rw [activeOn_singleton_of_pos hoc,
        activeOn_singleton_of_pos ((occupiesSlot_replace a d p status hpn hsn).trans hoc)]
      rfl
  refine ⟨?_, ?_, ?_, ?_⟩
  · intro q hq
    rcases List.mem_append.mp hq with hm | hm
    · exact h1 q (List.mem_append.mpr (Or.inl hm))
    · rcases List.mem_cons.mp hm with rfl | hm2
      · exact hspc
      · exact h1 q (List.mem_append.mpr (Or.inr (List.mem_cons.mpr (Or.inr hm2))))
  · intro q hq
    rcases List.mem_append.mp hq with hm | hm
    · exact h2 q (List.mem_append.mpr (Or.inl hm))
    · rcases List.mem_cons.mp hm with rfl | hm2
      · exact h2 p hpmem
      · exact h2 q (List.mem_append.mpr (Or.inr (List.mem_cons.mpr (Or.inr hm2))))
  · intro a d
    have := congrArg List.length (hmapeq a d)
    rw [List.length_map, List.length_map] at this
    rw [this]
    exact h3 a d
  · intro a d
    have hold : ((activeOn (A ++ p :: B) a d).map (fun q => q.bookId)).Pairwise Ne :=
      List.pairwise_map.mpr (h4 a d)
    rw [← hmapeq a d] at hold
    exact List.pairwise_map.mp hold

theorem markPurchaseStatus_good (st : ManagerState) (purchaseId : String)
    (status : PurchaseStatus) (today : Nat) (h : GoodState st) :
    GoodState (markPurchaseStatus st purchaseId status today).1 := by
  cases hsplit : splitAtPurchaseId purchaseId st.masterSchedule with
  | none =>
    rw [markPurchaseStatus_eq_not_found st purchaseId status today hsplit]
    exact h
  | some s0 =>
    obtain ⟨A, p, B⟩ := s0
    obtain ⟨hdec, _, _⟩ :=
      splitAtPurchaseId_some_spec purchaseId st.masterSchedule A p B hsplit
    by_cases hsame : p.status = status
    · rw [markPurchaseStatus_eq_same st purchaseId status today A p B hsplit hsame]
      exact h
    · by_cases hrs : status = PurchaseStatus.missed ∨ status = PurchaseStatus.delayed
      · rw [markPurchaseStatus_eq_reschedule st purchaseId status today A p B hsplit
          hsame hrs]
        dsimp only
        apply processTasks_good
        unfold GoodState
        dsimp only
        have hsub : (A ++ B).Sublist (A ++ p :: B) :=
          List.Sublist.append (List.Sublist.refl A) (List.sublist_cons_self p B)
        unfold GoodState at h
        rw [hdec] at h
        exact GoodList.sublist hsub h
      · have hspc : status = PurchaseStatus.pending ∨ status = PurchaseStatus.completed := by
          cases status with
          | pending => exact Or.inl rfl
          | completed => exact Or.inr rfl
          | missed => exact absurd (Or.inl rfl) hrs
          | delayed => exact absurd (Or.inr rfl) hrs
        rw [markPurchaseStatus_eq_update st purchaseId status today A p B hsplit
          hsame hrs]
        unfold GoodState
        rw [logAudit_masterSchedule]
        dsimp only
        unfold GoodState at h
        rw [hdec] at h
        exact goodList_replace_status A B p status hspc h

theorem setAccountAvailability_good (st : ManagerState) (accountId : String)
    (unavailableDates : List Nat) (availableDates : Option (List Nat)) (today : Nat)
    (h : GoodState st) :
    GoodState (setAccountAvailability st accountId unavailableDates availableDates
      today).1 := by
  unfold setAccountAvailability
  by_cases hfound : st.allAccounts.all (fun a => decide (a.id ≠ accountId)) = true
  · rw [if_pos hfound]
    exact h
  · rw [if_neg hfound]
    dsimp only
    split
    · exact h
    · split
    -- no tasks to reschedule: only audit entries were appended
      · unfold GoodState
        rw [auditFold_masterSchedule, logAudit_masterSchedule]
        exact h
      · apply processTasks_good
        unfold GoodState
        dsimp only
        rw [logAudit_masterSchedule]
        dsimp only
        exact GoodList.sublist (List.filter_sublist _) h

theorem addNewOrders_good (st : ManagerState) (orders : List Order) (today : Nat)
    (h : GoodState st) : GoodState (addNewOrders st orders today) := by
  unfold addNewOrders
  by_cases he : (ordersToTasks orders).isEmpty = true
  · rw [if_pos he]
    exact h
  · rw [if_neg he]
    exact processTasks_good _ _ _ h

/-- Every reachable coordinator state satisfies the data-model invariants. -/
theorem reachable_good {st : ManagerState} (h : Reachable st) : GoodState st := by
  induction h with
  | init accounts avail =>
    refine ⟨?_, ?_, ?_, ?_⟩
    · intro p hp; cases hp
    · intro p hp; cases hp
    · intro a d
      simp [activeOn, initManager, MAX_PURCHASES_PER_ACCOUNT_PER_DAY]
    · intro a d
      simp [activeOn, initManager]
  | addOrders orders today _ ih => exact addNewOrders_good _ orders today ih
  | markStatus purchaseId status today _ ih =>
    exact markPurchaseStatus_good _ purchaseId status today ih
  | setAvail accountId unavailableDates availableDates today _ ih =>
    exact setAccountAvailability_good _ accountId unavailableDates availableDates today ih

/-! ## Proof support: bridging to the claims -/

theorem committedOn_eq_activeOn_of_PC {l : List ScheduledPurchase}
    (hpc : ∀ p ∈ l, p.status = PurchaseStatus.pending ∨
      p.status = PurchaseStatus.completed) (a : String) (d : Nat) :
    committedOn l a d = activeOn l a d := by
  unfold committedOn activeOn
  apply List.filter_congr
  intro p hp
  rcases hpc p hp with hx | hx <;> simp [statusIsCommitted, occupiesSlot, hx]

/-- The structural per-item facts of one engine run, with no assumptions on
the committed input. -/
theorem generateSchedule_item_props (tasksToProcess : List TaskToSchedule)
    (existingCommittedSchedule : List ScheduledPurchase) (allAccounts : List Account)
    (accountAvailability : AccountAvailability) (today : Nat) :
    ∀ p ∈ (generateSchedule tasksToProcess existingCommittedSchedule allAccounts
        accountAvailability today).1.scheduledItems,
      p.status = PurchaseStatus.pending ∧
      p.reviewDate = addDays p.purchaseDate MIN_REVIEW_DELAY_DAYS ∧
      p.purchaseId = p.reviewId ∧
      (isAccountUnavailableOnDate p.accountId p.purchaseDate accountAvailability = true →
        activeOn existingCommittedSchedule p.accountId p.purchaseDate ≠ []) := by
  have hinit := initializeRunState_inv existingCommittedSchedule accountAvailability
    allAccounts
  have hstart : EngineInv accountAvailability existingCommittedSchedule
      ⟨(initializeRunState existingCommittedSchedule accountAvailability allAccounts).1,
        [], [],
        (initializeRunState existingCommittedSchedule accountAvailability allAccounts).2⟩ := by
    refine ⟨?_, ?_, ?_, ?_, ?_, ?_, ?_⟩
    · simpa using hinit
    · intro p hp; cases hp
    · intro p hp; cases hp
    · intro p hp; cases hp
    · intro Hcap a d
      rw [hinit.counts a d]
      exact Hcap a d
    · intro Hpw a d
      simpa using Hpw a d
    · intro p hp; cases hp
  have hfinal := engine_fold_inv accountAvailability allAccounts today
    existingCommittedSchedule tasksToProcess _ hstart
  rw [generateSchedule_eq]
  intro p hp
  exact ⟨hfinal.pending p hp, hfinal.delay p hp, hfinal.ids p hp,
    fun hblk => hfinal.blockedSched p hp hblk⟩

/-- The `completed` purchases of a list carrying a given purchase id. -/
def completedWithId (l : List ScheduledPurchase) (purchaseId : String) :
    List ScheduledPurchase :=
  l.filter (fun p => decide (p.purchaseId = purchaseId ∧
    p.status = PurchaseStatus.completed))

theorem completedWithId_append (l₁ l₂ : List ScheduledPurchase) (purchaseId : String) :
    completedWithId (l₁ ++ l₂) purchaseId =
      completedWithId l₁ purchaseId ++ completedWithId l₂ purchaseId := by
  simp [completedWithId, List.filter_append]

theorem completedWithId_perm {l₁ l₂ : List ScheduledPurchase} (h : l₁.Perm l₂)
    (purchaseId : String) :
    (completedWithId l₁ purchaseId).Perm (completedWithId l₂ purchaseId) :=
  h.filter _

theorem completedWithId_of_all_pending {l : List ScheduledPurchase}
    (h : ∀ p ∈ l, p.status = PurchaseStatus.pending) (purchaseId : String) :
    completedWithId l purchaseId = [] := by
  unfold completedWithId
  rw [List.filter_eq_nil_iff]
  intro p hp
  have := h p hp
  simp [this]

theorem completedWithId_filter_committed (l : List ScheduledPurchase)
    (purchaseId : String) :
    completedWithId (l.filter statusIsCommitted) purchaseId =
      completedWithId l purchaseId := by
  unfold completedWithId
  rw [List.filter_filter]
  apply List.filter_congr
  intro p _
  by_cases hc : p.purchaseId = purchaseId ∧ p.status = PurchaseStatus.completed
  · simp [hc, statusIsCommitted, hc.2]
  · simp [hc]

theorem replace_status_eta (p : ScheduledPurchase) {s : PurchaseStatus}
    (h : p.status = s) : { p with status := s } = p := by
  cases p
  simp only at h
  rw [← h]

/-! ## Concrete scenarios -/

/-- A one-account roster used in concrete runs. -/
def exAccounts : List Account := [⟨"A", "Account A"⟩]

/-- A one-item order used in concrete runs. -/
def exOrder : Order := ⟨"o1", "c1", [⟨"r1", "b1"⟩], 0⟩

/-- The coordinator state after scheduling `exOrder` on a fresh manager. -/
def exState1 : ManagerState := addNewOrders (initManager exAccounts []) [exOrder] 0

/-- The single commitment `exState1` holds. -/
def exItem : ScheduledPurchase :=
  ⟨"r1", "r1", "o1", "b1", "A", 0, 4, PurchaseStatus.pending, some "c1", none⟩

theorem exState1_masterSchedule : exState1.masterSchedule = [exItem] := by decide

theorem exState1_reachable : Reachable exState1 :=
  Reachable.addOrders [exOrder] 0 (Reachable.init exAccounts [])

/-! ## The claims -/

/-- C1: in every coordinator state reachable by any sequence of
`addNewOrders`, `markPurchaseStatus` and `setAccountAvailability` calls, and
for every (account, day) pair, the number of `pending`/`completed` commitments
assigned to that account on that day is at most
`MAX_PURCHASES_PER_ACCOUNT_PER_DAY` (3). -/
theorem claim_C1_capacity_invariant (st : ManagerState) (h : Reachable st)
    (a : String) (d : Nat) :
    (committedOn st.masterSchedule a d).length ≤ MAX_PURCHASES_PER_ACCOUNT_PER_DAY := by
  obtain ⟨h1, _, h3, _⟩ := reachable_good h
  rw [committedOn_eq_activeOn_of_PC h1]
  exact h3 a d

theorem claim_C1_witness :
    (committedOn exState1.masterSchedule "A" 0).length ≤
      MAX_PURCHASES_PER_ACCOUNT_PER_DAY :=
  claim_C1_capacity_invariant exState1 exState1_reachable "A" 0

/-- C2: in every reachable coordinator state, no two `pending`/`completed`
commitments assigned to the same account on the same day share a book id. -/
theorem claim_C2_book_exclusivity (st : ManagerState) (h : Reachable st)
    (a : String) (d : Nat) :
    (committedOn st.masterSchedule a d).Pairwise (fun p q => p.bookId ≠ q.bookId) := by
  obtain ⟨h1, _, _, h4⟩ := reachable_good h
  rw [committedOn_eq_activeOn_of_PC h1]
  exact h4 a d

theorem claim_C2_witness :
    (committedOn exState1.masterSchedule "A" 0).Pairwise
      (fun p q => p.bookId ≠ q.bookId) :=
  claim_C2_book_exclusivity exState1 exState1_reachable "A" 0

/-- C5: every commitment of a reachable coordinator state, and every commitment
an engine run returns, has its review date exactly 4 calendar days after its
purchase date. -/
theorem claim_C5_review_delay :
    (∀ st : ManagerState, Reachable st → ∀ p ∈ st.masterSchedule,
      p.reviewDate = addDays p.purchaseDate 4) ∧
    (∀ (tasks : List TaskToSchedule) (committed : List ScheduledPurchase)
        (accounts : List Account) (avail : AccountAvailability) (today : Nat),
      ∀ p ∈ (generateSchedule tasks committed accounts avail today).1.scheduledItems,
        p.reviewDate = addDays p.purchaseDate 4) := by
  constructor
  · intro st h p hp
    exact (reachable_good h).2.1 p hp
  · intro tasks committed accounts avail today p hp
    exact (generateSchedule_item_props tasks committed accounts avail today p hp).2.1

theorem claim_C5_witness :
    exItem ∈ exState1.masterSchedule ∧
      exItem.reviewDate = addDays exItem.purchaseDate 4 :=
  ⟨by decide, claim_C5_review_delay.1 exState1 exState1_reachable exItem (by decide)⟩

/-- C8: the engine is deterministic: two invocations of `generateSchedule` on
identical inputs (tasks, committed schedule, account list and order,
availability, start day) return the same scheduled commitments in the same
order and the same unschedulable tasks in the same order. -/
theorem claim_C8_determinism (tasksA tasksB : List TaskToSchedule)
    (committedA committedB : List ScheduledPurchase)
    (accountsA accountsB : List Account) (availA availB : AccountAvailability)
    (dayA dayB : Nat) (ht : tasksA = tasksB) (hc : committedA = committedB)
    (ha : accountsA = accountsB) (hv : availA = availB) (hd : dayA = dayB) :
    (generateSchedule tasksA committedA accountsA availA dayA).1.scheduledItems =
      (generateSchedule tasksB committedB accountsB availB dayB).1.scheduledItems ∧
    (generateSchedule tasksA committedA accountsA availA dayA).1.unschedulableTasks =
      (generateSchedule tasksB committedB accountsB availB dayB).1.unschedulableTasks := by
  subst ht
  subst hc
  subst ha
  subst hv
  subst hd
  exact ⟨rfl, rfl⟩

theorem claim_C8_witness :
    (generateSchedule [⟨"r1", "b1", "o1", none⟩] [] exAccounts [] 0).1.scheduledItems =
      (generateSchedule [⟨"r1", "b1", "o1", none⟩] [] exAccounts [] 0).1.scheduledItems ∧
    (generateSchedule [⟨"r1", "b1", "o1", none⟩] [] exAccounts [] 0).1.unschedulableTasks =
      (generateSchedule [⟨"r1", "b1", "o1", none⟩] [] exAccounts [] 0).1.unschedulableTasks :=
  claim_C8_determinism _ _ _ _ _ _ _ _ _ _ rfl rfl rfl rfl rfl

/-- C9: marking a purchase id absent from the canonical set fails with the
not-found error, appends a `MARK_STATUS_FAIL` audit entry, and leaves the
canonical commitment set and the availability state unchanged. -/
theorem claim_C9_not_found (st : ManagerState) (purchaseId : String)
    (status : PurchaseStatus) (today : Nat)
    (h : ∀ p ∈ st.masterSchedule, p.purchaseId ≠ purchaseId) :
    (markPurchaseStatus st purchaseId status today).2 =
      Except.error ("Purchase with ID " ++ purchaseId ++ " not found in schedule.") ∧
    (markPurchaseStatus st purchaseId status today).1.masterSchedule =
      st.masterSchedule ∧
    (markPurchaseStatus st purchaseId status today).1.accountAvailability =
      st.accountAvailability ∧
    (markPurchaseStatus st purchaseId status today).1.auditLog =
      st.auditLog ++ [AuditAction.MARK_STATUS_FAIL] := by
  have hnone := (splitAtPurchaseId_none_spec purchaseId st.masterSchedule).mpr h
  rw [markPurchaseStatus_eq_not_found st purchaseId status today hnone]
  exact ⟨rfl, rfl, rfl, rfl⟩

theorem claim_C9_witness :
    (markPurchaseStatus exState1 "zz" PurchaseStatus.completed 0).2 =
      Except.error ("Purchase with ID " ++ "zz" ++ " not found in schedule.") ∧
    (markPurchaseStatus exState1 "zz" PurchaseStatus.completed 0).1.masterSchedule =
      exState1.masterSchedule ∧
    (markPurchaseStatus exState1 "zz" PurchaseStatus.completed 0).1.accountAvailability =
      exState1.accountAvailability ∧
    (markPurchaseStatus exState1 "zz" PurchaseStatus.completed 0).1.auditLog =
      exState1.auditLog ++ [AuditAction.MARK_STATUS_FAIL] :=
  claim_C9_not_found exState1 "zz" PurchaseStatus.completed 0 (by decide)

/-- C7: a task for which no attempted day offers a viable account — in
particular every task when the account list is empty — is appended to the
unschedulable output with a warning; no commitment is created for it and no
error is raised. -/
theorem claim_C7_unschedulable :
    (∀ (avail : AccountAvailability) (accounts : List Account) (today : Nat)
        (acc : EngineAcc) (task : TaskToSchedule),
      (∀ e, today ≤ e → e < today + MAX_SCHEDULING_ATTEMPT_DAYS →
        viableSlots avail acc.rs task.bookId e accounts = []) →
      (processOneTask avail accounts today acc task).scheduledItems =
        acc.scheduledItems ∧
      (processOneTask avail accounts today acc task).unschedulableTasks =
        acc.unschedulableTasks ++ [task] ∧
      (processOneTask avail accounts today acc task).warnings =
        acc.warnings ++ [EngineWarning.unschedulableTask task.reviewId task.bookId]) ∧
    (∀ (tasks : List TaskToSchedule) (committed : List ScheduledPurchase)
        (avail : AccountAvailability) (today : Nat),
      (generateSchedule tasks committed [] avail today).1.scheduledItems = [] ∧
      (generateSchedule tasks committed [] avail today).1.unschedulableTasks = tasks) := by
  constructor
  · intro avail accounts today acc task hempty
    have hnone := findSlot_none_of_empty avail accounts task.bookId
      MAX_SCHEDULING_ATTEMPT_DAYS today acc.rs hempty
    rw [processOneTask_eq_failure avail accounts today acc task hnone]
    exact ⟨rfl, rfl, rfl⟩
  · intro tasks committed avail today
    obtain ⟨h1, h2, _⟩ := generateSchedule_empty_accounts tasks committed avail today
    exact ⟨h1, h2⟩

theorem claim_C7_witness :
    ((processOneTask [] [] 0 ⟨RunState.empty, [], [], []⟩
        ⟨"r9", "b9", "o9", none⟩).scheduledItems = [] ∧
      (processOneTask [] [] 0 ⟨RunState.empty, [], [], []⟩
        ⟨"r9", "b9", "o9", none⟩).unschedulableTasks = [⟨"r9", "b9", "o9", none⟩] ∧
      (processOneTask [] [] 0 ⟨RunState.empty, [], [], []⟩
        ⟨"r9", "b9", "o9", none⟩).warnings =
        [EngineWarning.unschedulableTask "r9" "b9"]) ∧
    ((generateSchedule [⟨"r9", "b9", "o9", none⟩] [] [] [] 0).1.scheduledItems = [] ∧
      (generateSchedule [⟨"r9", "b9", "o9", none⟩] [] [] [] 0).1.unschedulableTasks =
        [⟨"r9", "b9", "o9", none⟩]) :=
  ⟨claim_C7_unschedulable.1 [] [] 0 ⟨RunState.empty, [], [], []⟩
      ⟨"r9", "b9", "o9", none⟩ (fun _ _ _ => rfl),
    claim_C7_unschedulable.2 [⟨"r9", "b9", "o9", none⟩] [] [] 0⟩

/-- The availability blocklist used in the conflict-rule scenario: account `A`
is blocked on day 10. -/
def exBlockedAvail : AccountAvailability := [("A", [10])]

/-- A committed purchase already occupying the blocked slot ("A", 10). -/
def exCommittedOnBlocked : ScheduledPurchase :=
  ⟨"e1", "e1", "o0", "bX", "A", 10, 14, PurchaseStatus.pending, none, none⟩

/-- A fresh task submitted while ("A", 10) is blocklisted. -/
def exTaskOnBlocked : TaskToSchedule := ⟨"r2", "b2", "o1", none⟩

/-- C3 is refuted: the conflict rule unblocks the run-state entry of a blocked
(account, day) already holding a committed item, and the unblocked entry then
admits NEW commitments too — here the engine places the fresh task `r2` as a
new `pending` commitment on the blocklisted slot ("A", 10). -/
theorem claim_C3_counterexample :
    isAccountUnavailableOnDate "A" 10 exBlockedAvail = true ∧
    (generateSchedule [exTaskOnBlocked] [exCommittedOnBlocked] exAccounts
        exBlockedAvail 10).1.scheduledItems.map
      (fun p => (p.reviewId, p.accountId, p.purchaseDate, p.status)) =
      [("r2", "A", 10, PurchaseStatus.pending)] := by
  constructor
  · decide
  · decide

/-- C3 (amended): a commitment the engine newly creates sits on a blocklisted
(account, day) only if a pre-existing committed (non-`missed`) purchase already
occupies that same (account, day) — on slots free of committed items the
blocklist is always respected. -/
theorem claim_C3_amended (tasks : List TaskToSchedule)
    (committed : List ScheduledPurchase) (accounts : List Account)
    (avail : AccountAvailability) (today : Nat) (p : ScheduledPurchase)
    (hp : p ∈ (generateSchedule tasks committed accounts avail today).1.scheduledItems)
    (hblk : isAccountUnavailableOnDate p.accountId p.purchaseDate avail = true) :
    ∃ q ∈ committed, q.status ≠ PurchaseStatus.missed ∧
      q.accountId = p.accountId ∧ q.purchaseDate = p.purchaseDate := by
  have hne := (generateSchedule_item_props tasks committed accounts avail today
    p hp).2.2.2 hblk
  cases hl : activeOn committed p.accountId p.purchaseDate with
  | nil => exact absurd hl hne
  | cons q qs =>
    have hqmem : q ∈ activeOn committed p.accountId p.purchaseDate := by
      rw [hl]
      exact List.mem_cons_self _ _
    obtain ⟨hmem, hst, ha, hd⟩ := mem_of_mem_activeOn hqmem
    exact ⟨q, hmem, hst, ha, hd⟩

theorem claim_C3_witness :
    ⟨"r2", "r2", "o1", "b2", "A", 10, 14, PurchaseStatus.pending, none, none⟩ ∈
      (generateSchedule [exTaskOnBlocked] [exCommittedOnBlocked] exAccounts
        exBlockedAvail 10).1.scheduledItems ∧
    ∃ q ∈ [exCommittedOnBlocked], q.status ≠ PurchaseStatus.missed ∧
      q.accountId = "A" ∧ q.purchaseDate = 10 :=
  ⟨by decide,
    claim_C3_amended [exTaskOnBlocked] [exCommittedOnBlocked] exAccounts
      exBlockedAvail 10
      ⟨"r2", "r2", "o1", "b2", "A", 10, 14, PurchaseStatus.pending, none, none⟩
      (by decide) (by decide)⟩

/-- C6: if `d` is the first candidate day (within the attempt window starting
at `today`) on which some account passes all three constraints, the engine
schedules the task on day `d` with the account `specChooseMin` selects among
the viable slots: the first account, in supplied list order, of minimum
current load. -/
theorem claim_C6_min_load_choice (avail : AccountAvailability)
    (accounts : List Account) (today : Nat) (acc : EngineAcc)
    (task : TaskToSchedule) (d : Nat) (h1 : today ≤ d)
    (h2 : d < today + MAX_SCHEDULING_ATTEMPT_DAYS)
    (hfirst : ∀ e, today ≤ e → e < d →
      viableSlots avail acc.rs task.bookId e accounts = [])
    (hne : viableSlots avail acc.rs task.bookId d accounts ≠ []) :
    ∃ slot : String × Nat,
      specChooseMin (viableSlots avail acc.rs task.bookId d accounts) = some slot ∧
      (processOneTask avail accounts today acc task).scheduledItems =
        acc.scheduledItems ++ [mkScheduledItem task slot.1 d] := by
  cases hres : (findSlotFrom avail accounts task.bookId MAX_SCHEDULING_ATTEMPT_DAYS
      today acc.rs).2 with
  | none =>
    have := findSlot_none avail accounts task.bookId MAX_SCHEDULING_ATTEMPT_DAYS
      today acc.rs hres d h1 h2
    exact absurd this hne
  | some slot0 =>
    obtain ⟨aid, date⟩ := slot0
    obtain ⟨hs1, hs2, hs3, ⟨load, hload⟩, _⟩ := findSlot_some avail accounts
      task.bookId MAX_SCHEDULING_ATTEMPT_DAYS today acc.rs aid date hres
    have hdd : date = d := by
      rcases Nat.lt_trichotomy date d with hlt | heq | hgt
      · rw [hfirst date hs1 hlt] at hload
        simp [chooseMinLoad] at hload
      · exact heq
      · exact absurd (hs3 d h1 hgt) hne
    subst hdd
    have hentry := findSlot_some_entry avail accounts task.bookId
      MAX_SCHEDULING_ATTEMPT_DAYS today acc.rs aid date hres
    rw [processOneTask_eq_success avail accounts today acc task aid date _ hres hentry]
    refine ⟨(aid, load), ?_, rfl⟩
    rw [← chooseMinLoad_eq_specChooseMin]
    exact hload

theorem claim_C6_witness :
    (0 ≤ 0 ∧ 0 < 0 + MAX_SCHEDULING_ATTEMPT_DAYS ∧
      viableSlots [] RunState.empty "b1" 0 exAccounts ≠ []) ∧
    ∃ slot : String × Nat,
      specChooseMin (viableSlots [] RunState.empty "b1" 0 exAccounts) = some slot ∧
      (processOneTask [] exAccounts 0 ⟨RunState.empty, [], [], []⟩
          ⟨"r1", "b1", "o1", none⟩).scheduledItems =
        [] ++ [mkScheduledItem ⟨"r1", "b1", "o1", none⟩ slot.1 0] :=
  ⟨⟨by decide, by decide, by decide⟩,
    claim_C6_min_load_choice [] exAccounts 0 ⟨RunState.empty, [], [], []⟩
      ⟨"r1", "b1", "o1", none⟩ 0 (by decide) (by decide)
      (fun e he1 he2 => absurd he2 (Nat.not_lt.mpr he1)) (by decide)⟩

/-- C10: every commitment the engine creates carries the originating task's
review id as its purchase id; converting a commitment back to a task keeps
that id as the review id, so rescheduling a commitment whose purchase id
equals its review id (as all engine-created commitments do) yields a new
commitment with the same purchase id. -/
theorem claim_C10_stable_ids :
    (∀ (tasks : List TaskToSchedule) (committed : List ScheduledPurchase)
        (accounts : List Account) (avail : AccountAvailability) (today : Nat),
      ∀ p ∈ (generateSchedule tasks committed accounts avail today).1.scheduledItems,
        p.purchaseId = p.reviewId ∧ ∃ t ∈ tasks, p.purchaseId = t.reviewId) ∧
    (∀ p : ScheduledPurchase, scheduledItemsToTasks [p] =
      [⟨p.reviewId, p.bookId, p.orderId, p.client⟩]) ∧
    (∀ (committed : List ScheduledPurchase) (accounts : List Account)
        (avail : AccountAvailability) (today : Nat) (p q : ScheduledPurchase),
      p.purchaseId = p.reviewId →
      q ∈ (generateSchedule (scheduledItemsToTasks [p]) committed accounts avail
        today).1.scheduledItems →
      q.purchaseId = p.purchaseId) := by
  have hpart1 : ∀ (tasks : List TaskToSchedule) (committed : List ScheduledPurchase)
      (accounts : List Account) (avail : AccountAvailability) (today : Nat),
      ∀ p ∈ (generateSchedule tasks committed accounts avail today).1.scheduledItems,
        p.purchaseId = p.reviewId ∧ ∃ t ∈ tasks, p.purchaseId = t.reviewId := by
    intro tasks committed accounts avail today p hp
    have hid := (generateSchedule_item_props tasks committed accounts avail today
      p hp).2.2.1
    refine ⟨hid, ?_⟩
    rw [generateSchedule_eq] at hp
    rcases engine_fold_origin avail accounts today tasks _ p hp with
      h0 | ⟨t, ht, aid, date, hpe⟩
    · exact absurd h0 (List.not_mem_nil p)
    · refine ⟨t, ht, ?_⟩
      rw [hpe]
      rfl
  refine ⟨hpart1, fun p => rfl, ?_⟩
  intro committed accounts avail today p q hp hq
  obtain ⟨_, t, ht, hqt⟩ := hpart1 _ committed accounts avail today q hq
  have ht2 : t = ⟨p.reviewId, p.bookId, p.orderId, p.client⟩ := by
    simpa [scheduledItemsToTasks] using ht
  rw [hqt, ht2, hp]

theorem claim_C10_witness :
    exItem ∈ (generateSchedule (scheduledItemsToTasks [exItem]) [] exAccounts
      [] 0).1.scheduledItems ∧
    exItem.purchaseId = exItem.purchaseId :=
  ⟨by decide,
    claim_C10_stable_ids.2.2 [] exAccounts [] 0 exItem exItem rfl (by decide)⟩

/-- The commitment of `exState1` after it is marked `completed`. -/
def exCompletedItem : ScheduledPurchase :=
  ⟨"r1", "r1", "o1", "b1", "A", 0, 4, PurchaseStatus.completed, some "c1", none⟩

/-- The coordinator state after marking `exState1`'s commitment `completed`. -/
def exState2 : ManagerState :=
  (markPurchaseStatus exState1 "r1" PurchaseStatus.completed 0).1

/-- A non-empty task list's rescheduling run keeps the number of `completed`
purchases carrying a given id: the committed purchases are carried over intact
and every engine-created item is `pending`. -/
theorem completedWithId_processTasks (st : ManagerState)
    (tasks : List TaskToSchedule) (today : Nat) (purchaseId : String)
    (h : tasks.isEmpty = false) :
    (completedWithId ((processTasks st tasks today).masterSchedule)
        purchaseId).length =
      (completedWithId st.masterSchedule purchaseId).length := by
  rw [processTasks_masterSchedule st tasks today h]
  rw [(completedWithId_perm (sortByPurchaseDate_perm _) purchaseId).length_eq]
  rw [completedWithId_append]
  have hpend : ∀ x ∈ (generateSchedule tasks
      (st.masterSchedule.filter statusIsCommitted) st.allAccounts
      st.accountAvailability today).1.scheduledItems,
      x.status = PurchaseStatus.pending :=
    fun x hx => (generateSchedule_item_props _ _ _ _ _ x hx).1
  rw [completedWithId_of_all_pending hpend purchaseId]
  rw [completedWithId_filter_committed]
  simp

/-- C4 is refuted: `completed` is not terminal.  `exState2` is reachable and
holds the commitment `r1` with status `completed`, yet marking `r1` as
`missed` removes the completed record and reschedules it — afterwards no
commitment of the canonical set is `completed` any more. -/
theorem claim_C4_counterexample :
    (∃ p ∈ exState2.masterSchedule, p.purchaseId = "r1" ∧
      p.status = PurchaseStatus.completed) ∧
    ∀ q ∈ ((markPurchaseStatus exState2 "r1" PurchaseStatus.missed
        0).1).masterSchedule,
      q.status ≠ PurchaseStatus.completed := by
  constructor
  · decide
  · decide

/-- C4 (amended): a `completed` commitment is not terminal — marking it
`missed` removes the completed record and resubmits it, strictly decreasing
the number of `completed` purchases with that id by one; what does hold is
the second half of the claim: in a reachable state a commitment only ever
becomes `completed` from status `pending` (after marking an id `completed`,
every `completed` purchase either was already in the set or its `pending`
original was). -/
theorem claim_C4_amended :
    (∀ (st : ManagerState) (purchaseId : String) (today : Nat)
        (A : List ScheduledPurchase) (p : ScheduledPurchase)
        (B : List ScheduledPurchase),
      splitAtPurchaseId purchaseId st.masterSchedule = some (A, p, B) →
      p.status = PurchaseStatus.completed →
      (completedWithId
          ((markPurchaseStatus st purchaseId PurchaseStatus.missed
            today).1.masterSchedule) purchaseId).length + 1 =
        (completedWithId st.masterSchedule purchaseId).length) ∧
    (∀ st : ManagerState, Reachable st →
      ∀ (purchaseId : String) (today : Nat) (q : ScheduledPurchase),
        q ∈ (markPurchaseStatus st purchaseId PurchaseStatus.completed
          today).1.masterSchedule →
        q.status = PurchaseStatus.completed →
        q ∈ st.masterSchedule ∨
          { q with status := PurchaseStatus.pending } ∈ st.masterSchedule) := by
  constructor
  · intro st purchaseId today A p B hsplit hc
    obtain ⟨hdec, hpid, _⟩ := splitAtPurchaseId_some_spec purchaseId
      st.masterSchedule A p B hsplit
    have hs : ¬p.status = PurchaseStatus.missed := by
      rw [hc]
      intro hx
      cases hx
    rw [markPurchaseStatus_eq_reschedule st purchaseId PurchaseStatus.missed today
      A p B hsplit hs (Or.inl rfl)]
    dsimp only
    rw [completedWithId_processTasks _ _ _ _ (by rfl)]
    dsimp only
    rw [hdec, completedWithId_append, completedWithId_append]
    have hcons : completedWithId (p :: B) purchaseId =
        p :: completedWithId B purchaseId := by
      simp [completedWithId, List.filter_cons, hpid, hc]
    rw [hcons]
    simp only [List.length_append, List.length_cons]
    omega
  · intro st hreach purchaseId today q hq hqc
    cases hsplit : splitAtPurchaseId purchaseId st.masterSchedule with
    | none =>
      rw [markPurchaseStatus_eq_not_found st purchaseId PurchaseStatus.completed
        today hsplit] at hq
      exact Or.inl hq
    | some s =>
      obtain ⟨A, p, B⟩ := s
      obtain ⟨hdec, hpid, _⟩ := splitAtPurchaseId_some_spec purchaseId
        st.masterSchedule A p B hsplit
      by_cases hsame : p.status = PurchaseStatus.completed
      · rw [markPurchaseStatus_eq_same st purchaseId PurchaseStatus.completed
          today A p B hsplit hsame] at hq
        exact Or.inl hq
      · have hns : ¬(PurchaseStatus.completed = PurchaseStatus.missed ∨
            PurchaseStatus.completed = PurchaseStatus.delayed) := by
          intro hx
          rcases hx with hx | hx <;> cases hx
        rw [markPurchaseStatus_eq_update st purchaseId PurchaseStatus.completed
          today A p B hsplit hsame hns] at hq
        dsimp only at hq
        rw [logAudit_masterSchedule] at hq
        dsimp only at hq
        rcases List.mem_append.mp hq with hA | hmid
        · refine Or.inl ?_
          rw [hdec]
          exact List.mem_append.mpr (Or.inl hA)
        rcases List.mem_cons.mp hmid with hqe | hB
        · have hmem : p ∈ st.masterSchedule := by
            rw [hdec]
            exact List.mem_append.mpr (Or.inr (List.mem_cons_self _ _))
          have hpend : p.status = PurchaseStatus.pending := by
            rcases (reachable_good hreach).1 p hmem with hx | hx
            · exact hx
            · exact absurd hx hsame
          refine Or.inr ?_
          rw [hqe]
          have h2 : ({ p with status := PurchaseStatus.pending } :
              ScheduledPurchase) ∈ st.masterSchedule := by
            rw [replace_status_eta p hpend]
            exact hmem
          exact h2
        · refine Or.inl ?_
          rw [hdec]
          exact List.mem_append.mpr (Or.inr (List.mem_cons.mpr (Or.inr hB)))

theorem claim_C4_witness :
    ((completedWithId ((markPurchaseStatus exState2 "r1" PurchaseStatus.missed
        0).1.masterSchedule) "r1").length + 1 =
      (completedWithId exState2.masterSchedule "r1").length) ∧
    (exCompletedItem ∈ exState1.masterSchedule ∨
      { exCompletedItem with status := PurchaseStatus.pending } ∈
        exState1.masterSchedule) :=
  ⟨claim_C4_amended.1 exState2 "r1" 0 [] exCompletedItem [] (by decide) rfl,
    claim_C4_amended.2 exState1 exState1_reachable "r1" 0 exCompletedItem
      (by decide) rfl⟩
